import Mathlib

/-!
Verification of the SPOP (Stream Processing Offload Protocol) codec and agent
runtime of the `rust-haproxy` repository, against its natural-language
specification.

The development shallowly embeds the relevant Rust code:

* byte buffers are `List Nat` (each element a byte value `< 256` on the wire);
  a `Buf`-style reader is a function `List Nat → Option α × List Nat`
  returning the parsed value (or `none` on failure) together with the
  remaining buffer.  On failure paths the buffer is advanced exactly as the
  `bytes::Buf` cursor is, so positions stay faithful after failed parses;
* machine integers are `Nat` (or `Int` for signed values), with explicit
  `% 2 ^ w` where the Rust code can overflow or truncate;
* fallible operations return `Option` or `Except`.

Each claim-level theorem cites the claim id in its doc comment.
-/

set_option maxRecDepth 10000

namespace Spop

namespace varint

/-- Continuation-byte loop of `varint::put` (src/spop/src/data/varint.rs):
`while n >= 0x80 { buf.put_u8((n as u8) | 0x80); n = (n - 0x80) >> 7; }`
followed by `buf.put_u8(n as u8)`.  `n as u8` is `n % 256`. -/
def putLoop (n : Nat) : List Nat :=
  if 0x80 ≤ n then (n % 256 ||| 0x80) :: putLoop ((n - 0x80) / 128)
  else [n % 256]
termination_by n
decreasing_by simp_wf; omega

/-- `varint::put` (src/spop/src/data/varint.rs): values `< 0xF0` are a single
byte; otherwise the first byte is `(n as u8) | 0xF0` and the remainder is
`putLoop ((n - 0xF0) >> 4)`.  The function models the bytes written. -/
def put (n : Nat) : List Nat :=
  if n < 0xF0 then [n % 256]
  else (n % 256 ||| 0xF0) :: putLoop ((n - 0xF0) / 16)

/-- Byte count accumulated by the loop stage of `varint::put`: one per
continuation byte plus one for the final byte. -/
def putCountLoop (n : Nat) : Nat :=
  if 0x80 ≤ n then 1 + putCountLoop ((n - 0x80) / 128) else 1
termination_by n
decreasing_by simp_wf; omega

/-- The `sz` value returned by `varint::put`: starts at 1 (the first byte)
and adds one per byte written afterwards. -/
def putCount (n : Nat) : Nat :=
  if n < 0xF0 then 1 else 1 + putCountLoop ((n - 0xF0) / 16)

/-- `varint::size_of` (src/spop/src/data/varint.rs), an exact translation of
the ten range arms of the `match`. -/
def size_of (n : Nat) : Nat :=
  if n < 0x00000000000000f0 then 1
  else if n < 0x00000000000008f0 then 2
  else if n < 0x00000000000408f0 then 3
  else if n < 0x00000000020408f0 then 4
  else if n < 0x00000001020408f0 then 5
  else if n < 0x00000081020408f0 then 6
  else if n < 0x00004081020408f0 then 7
  else if n < 0x00204081020408f0 then 8
  else if n < 0x10204081020408f0 then 9
  else 10

/-- Accumulation loop of `varint::get`:
`while buf.has_remaining() { let b = buf.get_u8(); n += (b as u64) << r;
r += 7; if b < 0x80 { break; } }`.  The addition wraps at `2 ^ 64` as the
release-mode `u64` addition does.  (For adversarial inputs with ten or more
continuation bytes the Rust shift amount would exceed 63, which is an
arithmetic-overflow panic in debug builds; no encoding produced by `put` has
that shape and no theorem below touches such inputs.) -/
def getLoop : List Nat → Nat → Nat → Nat × List Nat
  | [], n, _ => (n, [])
  | b :: rest, n, r =>
    let n1 := (n + (b <<< r)) % 2 ^ 64
    if b < 0x80 then (n1, rest) else getLoop rest n1 (r + 7)

/-- `varint::get` (src/spop/src/data/varint.rs): `None` on an empty buffer;
a first byte `< 0xF0` is its own value; otherwise the loop accumulates
starting from the first byte with shift 4.  The loop simply stops at end of
input, so a buffer exhausted mid-varint still yields `Some` of the partial
value. -/
def get (l : List Nat) : Option Nat × List Nat :=
  match l with
  | [] => (none, [])
  | b :: rest =>
    if b < 0xF0 then (some b, rest)
    else (some (getLoop rest b 4).1, (getLoop rest b 4).2)

lemma lor_0x80 : ∀ m < 256, m ||| 0x80 = m % 128 + 128 := by decide

lemma lor_0xF0 : ∀ m < 256, m ||| 0xF0 = m % 16 + 240 := by decide

lemma mod256_lor_0x80 (m : Nat) : m % 256 ||| 0x80 = m % 128 + 128 := by
  have h2 := lor_0x80 (m % 256) (Nat.mod_lt _ (by norm_num))
  rwa [Nat.mod_mod_of_dvd m (by norm_num : (128 : Nat) ∣ 256)] at h2

lemma mod256_lor_0xF0 (m : Nat) : m % 256 ||| 0xF0 = m % 16 + 240 := by
  have h2 := lor_0xF0 (m % 256) (Nat.mod_lt _ (by norm_num))
  rwa [Nat.mod_mod_of_dvd m (by norm_num : (16 : Nat) ∣ 256)] at h2

lemma getLoop_putLoop (m : Nat) : ∀ acc r extra, acc + m * 2 ^ r < 2 ^ 64 →
    getLoop (putLoop m ++ extra) acc r = (acc + m * 2 ^ r, extra) := by
  induction m using Nat.strong_induction_on with
  | _ m ih =>
    intro acc r extra hlt
    rw [putLoop]
    by_cases hm : 0x80 ≤ m
    · rw [if_pos hm]
      have hb : m % 256 ||| 0x80 = m % 128 + 128 := mod256_lor_0x80 m
      have hkey : m % 128 + 128 + 128 * ((m - 0x80) / 128) = m := by omega
      have hble : m % 128 + 128 ≤ m := by omega
      simp only [List.cons_append, getLoop, hb]
      rw [if_neg (by omega : ¬ (m % 128 + 128 < 0x80))]
      have hsh : (m % 128 + 128) <<< r = (m % 128 + 128) * 2 ^ r :=
        Nat.shiftLeft_eq _ r
      have hpow : (2 : Nat) ^ (r + 7) = 2 ^ r * 128 := by rw [pow_add]; norm_num
      have hsum : acc + (m % 128 + 128) * 2 ^ r +
          ((m - 0x80) / 128) * 2 ^ (r + 7) = acc + m * 2 ^ r := by
        rw [hpow]
        calc acc + (m % 128 + 128) * 2 ^ r + ((m - 0x80) / 128) * (2 ^ r * 128)
            = acc + (m % 128 + 128 + 128 * ((m - 0x80) / 128)) * 2 ^ r := by ring
          _ = acc + m * 2 ^ r := by rw [hkey]
      have hlt1 : acc + (m % 128 + 128) * 2 ^ r < 2 ^ 64 := by
        have h3 : (m % 128 + 128) * 2 ^ r ≤ m * 2 ^ r :=
          Nat.mul_le_mul_right _ hble
        omega
      rw [hsh, Nat.mod_eq_of_lt hlt1]
      rw [List.append_eq]
      rw [ih ((m - 0x80) / 128) (by omega) _ _ extra (by rw [hsum]; exact hlt)]
      rw [hsum]
    · rw [if_neg hm]
      have hm' : m % 256 = m := Nat.mod_eq_of_lt (by omega)
      simp only [List.cons_append, List.nil_append, List.append_eq, getLoop, hm']
      rw [if_pos (by omega : m < 0x80)]
      rw [Nat.shiftLeft_eq m r, Nat.mod_eq_of_lt hlt]

/-- Round trip of the varint codec on any trailing buffer. -/
theorem get_put (n : Nat) (h : n < 2 ^ 64) (extra : List Nat) :
    get (put n ++ extra) = (some n, extra) := by
  rw [put]
  by_cases hn : n < 0xF0
  · rw [if_pos hn]
    have hm : n % 256 = n := Nat.mod_eq_of_lt (by omega)
    simp only [List.cons_append, List.nil_append, get, hm]
    rw [if_pos hn]
  · rw [if_neg hn]
    have hb : n % 256 ||| 0xF0 = n % 16 + 240 := mod256_lor_0xF0 n
    simp only [List.cons_append, get, hb]
    rw [if_neg (by omega : ¬ (n % 16 + 240 < 0xF0))]
    have hkey : n % 16 + 240 + ((n - 0xF0) / 16) * 2 ^ 4 = n := by omega
    have hloop := getLoop_putLoop ((n - 0xF0) / 16) (n % 16 + 240) 4 extra
      (by omega)
    rw [hloop]
    simp only []
    refine Prod.ext ?_ rfl
    simp only [Option.some.injEq]
    omega

lemma putLoop_length_1 (m : Nat) (h : m < 128) : (putLoop m).length = 1 := by
  rw [putLoop, if_neg (by omega)]
  rfl

lemma putLoop_length_2 (m : Nat) (h1 : 128 ≤ m) (h2 : m < 16512) :
    (putLoop m).length = 2 := by
  rw [putLoop, if_pos (by omega)]
  rw [List.length_cons, putLoop_length_1 _ (by omega)]

lemma putLoop_length_3 (m : Nat) (h1 : 16512 ≤ m) (h2 : m < 2113664) :
    (putLoop m).length = 3 := by
  rw [putLoop, if_pos (by omega)]
  rw [List.length_cons, putLoop_length_2 _ (by omega) (by omega)]

lemma putLoop_length_4 (m : Nat) (h1 : 2113664 ≤ m) (h2 : m < 270549120) :
    (putLoop m).length = 4 := by
  rw [putLoop, if_pos (by omega)]
  rw [List.length_cons, putLoop_length_3 _ (by omega) (by omega)]

lemma putLoop_length_5 (m : Nat) (h1 : 270549120 ≤ m) (h2 : m < 34630287488) :
    (putLoop m).length = 5 := by
  rw [putLoop, if_pos (by omega)]
  rw [List.length_cons, putLoop_length_4 _ (by omega) (by omega)]

lemma putLoop_length_6 (m : Nat) (h1 : 34630287488 ≤ m)
    (h2 : m < 4432676798592) : (putLoop m).length = 6 := by
  rw [putLoop, if_pos (by omega)]
  rw [List.length_cons, putLoop_length_5 _ (by omega) (by omega)]

lemma putLoop_length_7 (m : Nat) (h1 : 4432676798592 ≤ m)
    (h2 : m < 567382630219904) : (putLoop m).length = 7 := by
  rw [putLoop, if_pos (by omega)]
  rw [List.length_cons, putLoop_length_6 _ (by omega) (by omega)]

lemma putLoop_length_8 (m : Nat) (h1 : 567382630219904 ≤ m)
    (h2 : m < 72624976668147840) : (putLoop m).length = 8 := by
  rw [putLoop, if_pos (by omega)]
  rw [List.length_cons, putLoop_length_7 _ (by omega) (by omega)]

lemma putLoop_length_9 (m : Nat) (h1 : 72624976668147840 ≤ m)
    (h2 : m < 9295997013522923648) : (putLoop m).length = 9 := by
  rw [putLoop, if_pos (by omega)]
  rw [List.length_cons, putLoop_length_8 _ (by omega) (by omega)]

lemma put_length (n : Nat) (h : ¬ n < 0xF0) :
    (put n).length = 1 + (putLoop ((n - 0xF0) / 16)).length := by
  rw [put, if_neg h, List.length_cons]
  omega

/-- The declared size matches the emitted length for every 64-bit value. -/
theorem size_of_eq_put_length (n : Nat) (h : n < 2 ^ 64) :
    size_of n = (put n).length := by
  by_cases h1 : n < 0xf0
  · rw [put, if_pos h1]
    simp only [size_of]
    rw [if_pos h1]
    rfl
  · rw [put_length n h1]
    by_cases h2 : n < 0x8f0
    · rw [putLoop_length_1 _ (by omega)]
      simp only [size_of]; split_ifs <;> omega
    · by_cases h3 : n < 0x408f0
      · rw [putLoop_length_2 _ (by omega) (by omega)]
        simp only [size_of]; split_ifs <;> omega
      · by_cases h4 : n < 0x20408f0
        · rw [putLoop_length_3 _ (by omega) (by omega)]
          simp only [size_of]; split_ifs <;> omega
        · by_cases h5 : n < 0x1020408f0
          · rw [putLoop_length_4 _ (by omega) (by omega)]
            simp only [size_of]; split_ifs <;> omega
          · by_cases h6 : n < 0x81020408f0
            · rw [putLoop_length_5 _ (by omega) (by omega)]
              simp only [size_of]; split_ifs <;> omega
            · by_cases h7 : n < 0x4081020408f0
              · rw [putLoop_length_6 _ (by omega) (by omega)]
                simp only [size_of]; split_ifs <;> omega
              · by_cases h8 : n < 0x204081020408f0
                · rw [putLoop_length_7 _ (by omega) (by omega)]
                  simp only [size_of]; split_ifs <;> omega
                · by_cases h9 : n < 0x10204081020408f0
                  · rw [putLoop_length_8 _ (by omega) (by omega)]
                    simp only [size_of]; split_ifs <;> omega
                  · rw [putLoop_length_9 _ (by omega) (by omega)]
                    simp only [size_of]; split_ifs <;> omega

lemma putCountLoop_eq (m : Nat) : putCountLoop m = (putLoop m).length := by
  induction m using Nat.strong_induction_on with
  | _ m ih =>
    rw [putCountLoop, putLoop]
    by_cases hm : 0x80 ≤ m
    · rw [if_pos hm, if_pos hm, List.length_cons, ih _ (by omega)]
      omega
    · rw [if_neg hm, if_neg hm]
      rfl

/-- The count returned by `varint::put` equals the number of bytes written. -/
theorem putCount_eq_put_length (n : Nat) : putCount n = (put n).length := by
  rw [putCount, put]
  by_cases hn : n < 0xF0
  · rw [if_pos hn, if_pos hn]
    rfl
  · rw [if_neg hn, if_neg hn, List.length_cons, putCountLoop_eq]
    omega

end varint

set_option maxHeartbeats 1000000 in
/-- C6: for every `n < 2 ^ 64`, decoding the varint encoding of `n` yields
`n` and consumes exactly the encoding; `size_of n` equals the length of the
encoding (which is 1 byte exactly when `n < 240` and never exceeds 10); and
the byte count returned by the encoder equals the number of bytes it wrote. -/
theorem varint_roundtrip (n : Nat) (h : n < 2 ^ 64) :
    varint.get (varint.put n) = (some n, []) ∧
    varint.size_of n = (varint.put n).length ∧
    varint.putCount n = (varint.put n).length ∧
    ((varint.put n).length = 1 ↔ n < 240) ∧
    (varint.put n).length ≤ 10 := by
  have hrt := varint.get_put n h []
  rw [List.append_nil] at hrt
  have hsz := varint.size_of_eq_put_length n h
  refine ⟨hrt, hsz, varint.putCount_eq_put_length n, ?_, ?_⟩
  · rw [← hsz]
    unfold varint.size_of
    split_ifs <;> omega
  · rw [← hsz]
    unfold varint.size_of
    split_ifs <;> omega

/-- Witness for C6 at `n = 2288` (the first 3-byte value). -/
theorem varint_roundtrip_witness :
    (2288 : Nat) < 2 ^ 64 ∧
    (varint.get (varint.put 2288) = (some 2288, []) ∧
     varint.size_of 2288 = (varint.put 2288).length ∧
     varint.putCount 2288 = (varint.put 2288).length ∧
     ((varint.put 2288).length = 1 ↔ (2288 : Nat) < 240) ∧
     (varint.put 2288).length ≤ 10) :=
  ⟨by norm_num, varint_roundtrip 2288 (by norm_num)⟩

/-- C7 counterexample: the input `[0xF0]` is exhausted in the middle of a
varint (its first byte is `≥ 0xF0` and the continuation byte is missing),
yet `varint::get` returns `Some 240` rather than the no-data outcome. -/
theorem varint_get_truncated_counterexample :
    varint.get [0xF0] = (some 240, []) := by
  decide

/-- C7 (amended): varint decoding returns the no-data outcome exactly when
the input buffer is empty; an input exhausted in the middle of a varint
yields `Some` of the partially accumulated value instead. -/
theorem varint_get_none_iff (l : List Nat) :
    (varint.get l).1 = none ↔ l = [] := by
  cases l with
  | nil => simp [varint.get]
  | cons b rest =>
    by_cases hb : b < 0xF0 <;> simp [varint.get, hb]

/-- `Buf::get_u8` guarded by `has_remaining` (decode.rs `get_u8`). -/
def getU8 : List Nat → Option Nat × List Nat
  | [] => (none, [])
  | b :: rest => (some b, rest)

/-- `get_bytes` (src/spop/src/data/buf.rs): `(buf.remaining() >= n).then(||
buf.copy_to_bytes(n))`.  On failure the cursor is not advanced. -/
def getBytes (n : Nat) (l : List Nat) : Option (List Nat) × List Nat :=
  if n ≤ l.length then (some (l.take n), l.drop n) else (none, l)

/-- Whether `c` is a UTF-8 continuation byte (`0x80..=0xBF`). -/
def utf8Cont (c : Nat) : Bool := 0x80 ≤ c && c ≤ 0xBF

/-- The validity check performed by `String::from_utf8` (RFC 3629): ASCII,
or a leading byte followed by the right number of continuation bytes, with
the restricted ranges that exclude overlong forms and surrogates. -/
def utf8Valid : List Nat → Bool
  | [] => true
  | b :: rest =>
    if b < 0x80 then utf8Valid rest
    else if 0xC2 ≤ b && b ≤ 0xDF then
      match rest with
      | c1 :: r => utf8Cont c1 && utf8Valid r
      | [] => false
    else if b = 0xE0 then
      match rest with
      | c1 :: c2 :: r => (0xA0 ≤ c1 && c1 ≤ 0xBF) && utf8Cont c2 && utf8Valid r
      | _ => false
    else if (0xE1 ≤ b && b ≤ 0xEC) || b = 0xEE || b = 0xEF then
      match rest with
      | c1 :: c2 :: r => utf8Cont c1 && utf8Cont c2 && utf8Valid r
      | _ => false
    else if b = 0xED then
      match rest with
      | c1 :: c2 :: r => (0x80 ≤ c1 && c1 ≤ 0x9F) && utf8Cont c2 && utf8Valid r
      | _ => false
    else if b = 0xF0 then
      match rest with
      | c1 :: c2 :: c3 :: r =>
        (0x90 ≤ c1 && c1 ≤ 0xBF) && utf8Cont c2 && utf8Cont c3 && utf8Valid r
      | _ => false
    else if 0xF1 ≤ b && b ≤ 0xF3 then
      match rest with
      | c1 :: c2 :: c3 :: r =>
        utf8Cont c1 && utf8Cont c2 && utf8Cont c3 && utf8Valid r
      | _ => false
    else if b = 0xF4 then
      match rest with
      | c1 :: c2 :: c3 :: r =>
        (0x80 ≤ c1 && c1 ≤ 0x8F) && utf8Cont c2 && utf8Cont c3 && utf8Valid r
      | _ => false
    else false

/-- The typed-data sum (src/spop/src/data/typed.rs).  Rust `String`s are
embedded as their UTF-8 byte lists; IP addresses as their octet lists. -/
inductive Typed where
  | null
  | boolean (b : Bool)
  | int32 (n : Int)
  | uint32 (n : Nat)
  | int64 (n : Int)
  | uint64 (n : Nat)
  | ipv4 (a : List Nat)
  | ipv6 (a : List Nat)
  | string (s : List Nat)
  | binary (b : List Nat)
deriving DecidableEq

/-- Well-formedness of an embedded `Typed` value: the field ranges that every
value of the corresponding Rust type satisfies by construction. -/
def Typed.wfb : Typed → Bool
  | .null => true
  | .boolean _ => true
  | .int32 n => decide (-2 ^ 31 ≤ n) && decide (n < 2 ^ 31)
  | .uint32 n => decide (n < 2 ^ 32)
  | .int64 n => decide (-2 ^ 63 ≤ n) && decide (n < 2 ^ 63)
  | .uint64 n => decide (n < 2 ^ 64)
  | .ipv4 a => a.length == 4 && a.all (· < 256)
  | .ipv6 a => a.length == 16 && a.all (· < 256)
  | .string s => utf8Valid s && decide (s.length < 2 ^ 64)
  | .binary b => b.all (· < 256) && decide (b.length < 2 ^ 64)

/-- Rust `i as u64` for `i: i32`/`i64`: sign-extension then reinterpretation,
i.e. the value modulo `2 ^ 64`. -/
def castIToU64 (n : Int) : Nat := (n % 2 ^ 64).toNat

/-- Rust `n as i32` for `n: u64`: truncation to the low 32 bits then signed
reinterpretation. -/
def castU64ToI32 (n : Nat) : Int :=
  if n % 2 ^ 32 < 2 ^ 31 then ((n % 2 ^ 32 : Nat) : Int)
  else ((n % 2 ^ 32 : Nat) : Int) - 2 ^ 32

/-- Rust `n as i64` for `n: u64`. -/
def castU64ToI64 (n : Nat) : Int :=
  if n % 2 ^ 64 < 2 ^ 63 then ((n % 2 ^ 64 : Nat) : Int)
  else ((n % 2 ^ 64 : Nat) : Int) - 2 ^ 64

/-- `put_string` / `put_bytes` (src/spop/src/data/buf.rs): varint length
prefix followed by the raw bytes. -/
def put_string (s : List Nat) : List Nat := varint.put s.length ++ s

/-- `put_typed` (src/spop/src/data/buf.rs): one tag byte (low nibble the type
id, high nibble only used by booleans) followed by the type-specific body. -/
def put_typed : Typed → List Nat
  | .null => [0]
  | .boolean b => [1 ||| (if b then 0x10 else 0x00)]
  | .int32 n => 2 :: varint.put (castIToU64 n)
  | .uint32 n => 3 :: varint.put n
  | .int64 n => 4 :: varint.put (castIToU64 n)
  | .uint64 n => 5 :: varint.put n
  | .ipv4 a => 6 :: a
  | .ipv6 a => 7 :: a
  | .string s => 8 :: put_string s
  | .binary b => 9 :: (varint.put b.length ++ b)

/-- `Buf::string` (src/spop/src/data/buf.rs): varint length, then that many
bytes, then the `String::from_utf8` validity check. -/
def string (l : List Nat) : Option (List Nat) × List Nat :=
  match varint.get l with
  | (none, r) => (none, r)
  | (some sz, r1) =>
    match getBytes sz r1 with
    | (none, r2) => (none, r2)
    | (some b, r2) => if utf8Valid b then (some b, r2) else (none, r2)

/-- `typed_data` (src/spop/src/data/buf.rs): reads the tag byte, splits it
into type id (`b & 0x0F`) and flags (`b & 0xF0`, of which only `0x10` is
defined), and dispatches; type ids `10..=15` fail `try_from_primitive`. -/
def typed_data (l : List Nat) : Option Typed × List Nat :=
  match getU8 l with
  | (none, r) => (none, r)
  | (some b, r) =>
    if b &&& 0x0F = 0 then (some .null, r)
    else if b &&& 0x0F = 1 then (some (.boolean ((b &&& 0x10) == 0x10)), r)
    else if b &&& 0x0F = 2 then
      match varint.get r with
      | (none, r2) => (none, r2)
      | (some n, r2) => (some (.int32 (castU64ToI32 n)), r2)
    else if b &&& 0x0F = 3 then
      match varint.get r with
      | (none, r2) => (none, r2)
      | (some n, r2) => (some (.uint32 (n % 2 ^ 32)), r2)
    else if b &&& 0x0F = 4 then
      match varint.get r with
      | (none, r2) => (none, r2)
      | (some n, r2) => (some (.int64 (castU64ToI64 n)), r2)
    else if b &&& 0x0F = 5 then
      match varint.get r with
      | (none, r2) => (none, r2)
      | (some n, r2) => (some (.uint64 n), r2)
    else if b &&& 0x0F = 6 then
      match getBytes 4 r with
      | (none, r2) => (none, r2)
      | (some a, r2) => (some (.ipv4 a), r2)
    else if b &&& 0x0F = 7 then
      match getBytes 16 r with
      | (none, r2) => (none, r2)
      | (some a, r2) => (some (.ipv6 a), r2)
    else if b &&& 0x0F = 8 then
      match string r with
      | (none, r2) => (none, r2)
      | (some s, r2) => (some (.string s), r2)
    else if b &&& 0x0F = 9 then
      match varint.get r with
      | (none, r2) => (none, r2)
      | (some n, r2) =>
        match getBytes n r2 with
        | (none, r3) => (none, r3)
        | (some bs, r3) => (some (.binary bs), r3)
    else (none, r)

lemma castU64ToI32_castIToU64 (n : Int) (h1 : -2 ^ 31 ≤ n) (h2 : n < 2 ^ 31) :
    castU64ToI32 (castIToU64 n) = n := by
  unfold castU64ToI32 castIToU64
  split_ifs <;> omega

lemma castU64ToI64_castIToU64 (n : Int) (h1 : -2 ^ 63 ≤ n) (h2 : n < 2 ^ 63) :
    castU64ToI64 (castIToU64 n) = n := by
  unfold castU64ToI64 castIToU64
  split_ifs <;> omega

lemma castIToU64_lt (n : Int) : castIToU64 n < 2 ^ 64 := by
  unfold castIToU64
  omega

lemma getBytes_append (a extra : List Nat) :
    getBytes a.length (a ++ extra) = (some a, extra) := by
  unfold getBytes
  rw [if_pos (by simp), List.take_left' rfl, List.drop_left' rfl]

/-- Round trip of `string` on any trailing buffer. -/
lemma string_put_string (s : List Nat) (hwf : utf8Valid s = true)
    (hlen : s.length < 2 ^ 64) (extra : List Nat) :
    string (put_string s ++ extra) = (some s, extra) := by
  unfold string put_string
  rw [List.append_assoc, varint.get_put s.length hlen (s ++ extra)]
  simp only [getBytes_append, hwf, if_true]

/-- Round trip of the typed-data codec on any trailing buffer. -/
theorem typed_data_put_typed (v : Typed) (h : v.wfb = true) (extra : List Nat) :
    typed_data (put_typed v ++ extra) = (some v, extra) := by
  cases v with
  | null => rfl
  | boolean b => cases b <;> rfl
  | int32 n =>
    simp only [Typed.wfb, Bool.and_eq_true, decide_eq_true_eq] at h
    simp only [put_typed, List.cons_append, typed_data, getU8,
      show (2 &&& 15 : Nat) = 2 from by decide]
    norm_num
    rw [varint.get_put _ (castIToU64_lt n) extra]
    simp only [castU64ToI32_castIToU64 n h.1 h.2]
  | uint32 n =>
    simp only [Typed.wfb, decide_eq_true_eq] at h
    simp only [put_typed, List.cons_append, typed_data, getU8,
      show (3 &&& 15 : Nat) = 3 from by decide]
    norm_num
    rw [varint.get_put _ (by omega) extra]
    simp only [Nat.mod_eq_of_lt (show n < 4294967296 by omega)]
  | int64 n =>
    simp only [Typed.wfb, Bool.and_eq_true, decide_eq_true_eq] at h
    simp only [put_typed, List.cons_append, typed_data, getU8,
      show (4 &&& 15 : Nat) = 4 from by decide]
    norm_num
    rw [varint.get_put _ (castIToU64_lt n) extra]
    simp only [castU64ToI64_castIToU64 n h.1 h.2]
  | uint64 n =>
    simp only [Typed.wfb, decide_eq_true_eq] at h
    simp only [put_typed, List.cons_append, typed_data, getU8,
      show (5 &&& 15 : Nat) = 5 from by decide]
    norm_num
    rw [varint.get_put _ h extra]
  | ipv4 a =>
    simp only [Typed.wfb, Bool.and_eq_true, beq_iff_eq] at h
    simp only [put_typed, List.cons_append, typed_data, getU8,
      show (6 &&& 15 : Nat) = 6 from by decide]
    norm_num
    rw [show (4 : Nat) = a.length from h.1.symm, getBytes_append a extra]
  | ipv6 a =>
    simp only [Typed.wfb, Bool.and_eq_true, beq_iff_eq] at h
    simp only [put_typed, List.cons_append, typed_data, getU8,
      show (7 &&& 15 : Nat) = 7 from by decide]
    norm_num
    rw [show (16 : Nat) = a.length from h.1.symm, getBytes_append a extra]
  | string s =>
    simp only [Typed.wfb, Bool.and_eq_true, decide_eq_true_eq] at h
    simp only [put_typed, List.cons_append, typed_data, getU8,
      show (8 &&& 15 : Nat) = 8 from by decide]
    norm_num
    rw [string_put_string s h.1 h.2 extra]
  | binary b =>
    simp only [Typed.wfb, Bool.and_eq_true, decide_eq_true_eq] at h
    simp only [put_typed, List.cons_append, typed_data, getU8,
      show (9 &&& 15 : Nat) = 9 from by decide]
    norm_num
    rw [varint.get_put _ h.2 (b ++ extra)]
    simp only [getBytes_append]

/-- C8: for every well-formed value of the typed sum, decoding the bytes
produced by encoding it yields exactly that value and consumes the entire
encoding, leaving no remaining bytes. -/
theorem typed_roundtrip (v : Typed) (h : v.wfb = true) :
    typed_data (put_typed v) = (some v, []) := by
  have h1 := typed_data_put_typed v h []
  rwa [List.append_nil] at h1

/-- Witness for C8 at a concrete string value. -/
theorem typed_roundtrip_witness :
    (Typed.string [104, 105]).wfb = true ∧
    typed_data (put_typed (Typed.string [104, 105])) =
      (some (Typed.string [104, 105]), []) :=
  ⟨by decide, typed_roundtrip (Typed.string [104, 105]) (by decide)⟩

lemma getLoop_rest_length_le (l : List Nat) :
    ∀ n r, ((varint.getLoop l n r).2).length ≤ l.length := by
  induction l with
  | nil => intro n r; simp [varint.getLoop]
  | cons b rest ih =>
    intro n r
    simp only [varint.getLoop]
    by_cases hb : b < 0x80
    · rw [if_pos hb]; simp
    · rw [if_neg hb]
      exact le_trans (ih _ _) (by simp)

lemma varint_get_rest_le (l : List Nat) :
    ((varint.get l).2).length ≤ l.length := by
  cases l with
  | nil => simp [varint.get]
  | cons b rest =>
    by_cases hb : b < 0xF0
    · simp [varint.get, hb]
    · simp only [varint.get, if_neg hb]
      exact le_trans (getLoop_rest_length_le rest b 4) (by simp)

lemma varint_get_cons_lt (b : Nat) (rest : List Nat) :
    ((varint.get (b :: rest)).2).length < (b :: rest).length := by
  by_cases hb : b < 0xF0
  · simp [varint.get, hb]
  · simp only [varint.get, if_neg hb]
    exact lt_of_le_of_lt (getLoop_rest_length_le rest b 4) (by simp)

lemma getBytes_rest_le (n : Nat) (l : List Nat) :
    ((getBytes n l).2).length ≤ l.length := by
  unfold getBytes
  split_ifs <;> simp

lemma string_rest_le (l : List Nat) : ((string l).2).length ≤ l.length := by
  unfold string
  rcases h1 : varint.get l with ⟨o, r1⟩
  have e1 : r1.length ≤ l.length := by
    have h := varint_get_rest_le l
    rw [h1] at h
    exact h
  cases o with
  | none => simpa using e1
  | some sz =>
    simp only []
    rcases h2 : getBytes sz r1 with ⟨o2, r2⟩
    have e2 : r2.length ≤ r1.length := by
      have h := getBytes_rest_le sz r1
      rw [h2] at h
      exact h
    cases o2 with
    | none => simp; omega
    | some bs =>
      simp only []
      split_ifs <;> simp <;> omega

lemma string_rest_lt (l : List Nat) (s : List Nat)
    (h : (string l).1 = some s) : ((string l).2).length < l.length := by
  unfold string at h ⊢
  cases l with
  | nil => simp [varint.get] at h
  | cons b rest =>
    rcases h1 : varint.get (b :: rest) with ⟨o, r1⟩
    have e1 : r1.length ≤ rest.length := by
      have hv := varint_get_cons_lt b rest
      rw [h1] at hv
      simp only [List.length_cons] at hv
      omega
    cases o with
    | none =>
      rw [h1] at h
      simp at h
    | some sz =>
      simp only []
      rcases h2 : getBytes sz r1 with ⟨o2, r2⟩
      have e2 : r2.length ≤ r1.length := by
        have hg := getBytes_rest_le sz r1
        rw [h2] at hg
        exact hg
      cases o2 with
      | none => simp; omega
      | some bs =>
        simp only []
        split_ifs <;> simp <;> omega

set_option maxHeartbeats 4000000 in
lemma typed_rest_le (l : List Nat) : ((typed_data l).2).length ≤ l.length := by
  unfold typed_data
  cases l with
  | nil => simp [getU8]
  | cons b rest =>
    simp only [getU8]
    rcases hv : varint.get rest with ⟨ov, rv⟩
    have ev : rv.length ≤ rest.length := by
      have h := varint_get_rest_le rest
      rw [hv] at h
      exact h
    rcases h4 : getBytes 4 rest with ⟨o4, r4⟩
    have e4 : r4.length ≤ rest.length := by
      have h := getBytes_rest_le 4 rest
      rw [h4] at h
      exact h
    rcases h16 : getBytes 16 rest with ⟨o16, r16⟩
    have e16 : r16.length ≤ rest.length := by
      have h := getBytes_rest_le 16 rest
      rw [h16] at h
      exact h
    rcases hs : string rest with ⟨os, rs⟩
    have es : rs.length ≤ rest.length := by
      have h := string_rest_le rest
      rw [hs] at h
      exact h
    split_ifs
    · simp only [List.length_cons]
      omega
    · simp only [List.length_cons]
      omega
    · cases ov <;> simp only [List.length_cons] <;> omega
    · cases ov <;> simp only [List.length_cons] <;> omega
    · cases ov <;> simp only [List.length_cons] <;> omega
    · cases ov <;> simp only [List.length_cons] <;> omega
    · cases o4 <;> simp only [List.length_cons] <;> omega
    · cases o16 <;> simp only [List.length_cons] <;> omega
    · cases os <;> simp only [List.length_cons] <;> omega
    · cases ov with
      | none =>
        simp only [List.length_cons]
        omega
      | some n =>
        simp only []
        rcases h2 : getBytes n rv with ⟨o2, r2⟩
        have e2 : r2.length ≤ rv.length := by
          have h := getBytes_rest_le n rv
          rw [h2] at h
          exact h
        cases o2 <;> simp only [List.length_cons] <;> omega
    · simp only [List.length_cons]
      omega

/-- The SPOP protocol version (src/spop/src/version.rs), `{major}.{minor}`.
The derived Rust `Ord` is lexicographic on `(major, minor)`. -/
structure Version where
  major : Nat
  minor : Nat
deriving DecidableEq

/-- The capabilities supported by HAProxy (src/spop/src/caps.rs). -/
inductive Capability where
  | fragmentation
  | pipelining
  | async
deriving DecidableEq

/-- The variable scope of an action (src/spop/src/action.rs `Scope`,
discriminants 0..=4). -/
inductive Scope where
  | process
  | session
  | transaction
  | request
  | response
deriving DecidableEq

/-- `Scope as u8`. -/
def Scope.toByte : Scope → Nat
  | .process => 0
  | .session => 1
  | .transaction => 2
  | .request => 3
  | .response => 4

/-- A SPOE message (src/spop/src/frame/msg.rs): a name and an ordered
argument list. -/
structure Message where
  name : List Nat
  args : List (List Nat × Typed)
deriving DecidableEq

/-- A SPOE action (frame/decode.rs / frame/encode.rs `Action`).  The action
type tags are `SetVar = 1`, `UnsetVar = 2` (src/spop/src/action.rs constants
`SPOE_ACT_T_SET_VAR`/`SPOE_ACT_T_UNSET_VAR` and the frames.rs tests). -/
inductive Action where
  | set_var (scope : Scope) (name : List Nat) (value : Typed)
  | unset_var (scope : Scope) (name : List Nat)
deriving DecidableEq

/-- Frame metadata (src/spop/src/frame/metadata.rs).  `flags` holds the
bits retained by `Flags::from_bits_truncate`, i.e. `FIN = 0x1` and
`ABORT = 0x2`. -/
structure Metadata where
  flags : Nat
  stream_id : Nat
  frame_id : Nat
deriving DecidableEq

/-- `Metadata::is_final`: the FIN bit is set. -/
def Metadata.is_final (md : Metadata) : Bool := (md.flags &&& 1) == 1

/-- `Metadata::fragmented`: the FIN bit is clear. -/
def Metadata.fragmented (md : Metadata) : Bool := ! md.is_final

/-- `Metadata::aborted`: the ABORT bit is set. -/
def Metadata.aborted (md : Metadata) : Bool := (md.flags &&& 2) == 2

/-- `Metadata::default()`: FIN set, both ids zero. -/
def mdDefault : Metadata := { flags := 1, stream_id := 0, frame_id := 0 }

/-- `haproxy::Hello` (src/spop/src/frame/haproxy.rs). -/
structure HaproxyHello where
  supported_versions : List Version
  max_frame_size : Nat
  capabilities : List Capability
  healthcheck : Option Bool
  engine_id : Option (List Nat)
deriving DecidableEq

/-- `agent::Hello` (src/spop/src/frame/agent.rs). -/
structure AgentHello where
  version : Version
  max_frame_size : Nat
  capabilities : List Capability
deriving DecidableEq

/-- `frame::Disconnect` (src/spop/src/frame/disconnect.rs). -/
structure Disconnect where
  status_code : Nat
  message : List Nat
deriving DecidableEq

/-- `haproxy::Notify` (src/spop/src/frame/haproxy.rs). -/
structure Notify where
  fragmented : Bool
  stream_id : Nat
  frame_id : Nat
  messages : List Message
deriving DecidableEq

/-- `agent::Ack` (src/spop/src/frame/agent.rs). -/
structure Ack where
  fragmented : Bool
  aborted : Bool
  stream_id : Nat
  frame_id : Nat
  actions : List Action
deriving DecidableEq

/-- `Notify::metadata()`: FIN iff not fragmented. -/
def Notify.metadata (n : Notify) : Metadata :=
  { flags := if n.fragmented then 0 else 1,
    stream_id := n.stream_id, frame_id := n.frame_id }

/-- `Ack::metadata()`: FIN iff not fragmented, ABORT iff aborted. -/
def Ack.metadata (a : Ack) : Metadata :=
  { flags := (if a.fragmented then 0 else 1) ||| (if a.aborted then 2 else 0),
    stream_id := a.stream_id, frame_id := a.frame_id }

/-- The frame sum (src/spop/src/frame/frames.rs). -/
inductive Frame where
  | unset
  | haproxyHello (h : HaproxyHello)
  | haproxyDisconnect (d : Disconnect)
  | haproxyNotify (n : Notify)
  | agentHello (h : AgentHello)
  | agentDisconnect (d : Disconnect)
  | agentAck (a : Ack)
deriving DecidableEq

/-- The SPOP error taxonomy (src/spop/src/error.rs). -/
inductive Error where
  | Normal
  | Io
  | Timeout
  | TooBig
  | Invalid
  | NoVersion
  | NoFrameSize
  | NoCapabilities
  | BadVersion
  | BadFrameSize
  | FragmentNotSupported
  | InterlacedFrames
  | FrameIdNotFound
  | ResourceAllocErr
  | Unknown
deriving DecidableEq

/-- The wire status code of an error (`Error as u32`; `Unknown = 99`). -/
def Error.code : Error → Nat
  | .Normal => 0
  | .Io => 1
  | .Timeout => 2
  | .TooBig => 3
  | .Invalid => 4
  | .NoVersion => 5
  | .NoFrameSize => 6
  | .NoCapabilities => 7
  | .BadVersion => 8
  | .BadFrameSize => 9
  | .FragmentNotSupported => 10
  | .InterlacedFrames => 11
  | .FrameIdNotFound => 12
  | .ResourceAllocErr => 13
  | .Unknown => 99

/-- The `buf.kv_list().take(nb)` iterator of `message` (frame/decode.rs):
reads at most `n` key/value pairs, stopping early at end of input or at the
first pair that fails to parse.  The returned buffer is the cursor position
after the last parse attempt (on a failed attempt the bytes it consumed stay
consumed, exactly as with `bytes::Buf`); when a pair fails the iterator
ends, so that position is where the caller resumes. -/
lemma getU8_rest_le (l : List Nat) : ((getU8 l).2).length ≤ l.length := by
  cases l <;> simp [getU8]

def kvTake : Nat → List Nat → List (List Nat × Typed) × List Nat
  | 0, l => ([], l)
  | Nat.succ n, l =>
    if l = [] then ([], l)
    else
      match string l with
      | (none, r) => ([], r)
      | (some k, r1) =>
        match typed_data r1 with
        | (none, r2) => ([], r2)
        | (some v, r2) =>
          match kvTake n r2 with
          | (ps, rest) => ((k, v) :: ps, rest)

lemma kvTake_rest_le (n : Nat) : ∀ l : List Nat,
    ((kvTake n l).2).length ≤ l.length := by
  induction n with
  | zero => intro l; simp [kvTake]
  | succ n ih =>
    intro l
    cases l with
    | nil => simp [kvTake]
    | cons b rest =>
      unfold kvTake
      rw [if_neg (List.cons_ne_nil b rest)]
      rcases h1 : string (b :: rest) with ⟨o1, r1⟩
      have e1 : r1.length ≤ rest.length + 1 := by
        have h := string_rest_le (b :: rest)
        rw [h1] at h
        simpa using h
      cases o1 with
      | none => simp only [List.length_cons]; omega
      | some k =>
        simp only []
        rcases h2 : typed_data r1 with ⟨o2, r2⟩
        have e2 : r2.length ≤ r1.length := by
          have h := typed_rest_le r1
          rw [h2] at h
          exact h
        cases o2 with
        | none => simp only [List.length_cons]; omega
        | some v =>
          simp only []
          rcases h3 : kvTake n r2 with ⟨ps, rest3⟩
          have e3 : rest3.length ≤ r2.length := by
            have h := ih r2
            rw [h3] at h
            exact h
          simp only [List.length_cons]
          omega

/-- `message` (frame/decode.rs): `<name:string><nb:u8><kv-pair * nb>`.
Parsing never fails once the name and count are read; a short or malformed
argument list just yields fewer arguments. -/
def message (l : List Nat) : Option Message × List Nat :=
  match string l with
  | (none, r) => (none, r)
  | (some nm, r1) =>
    match getU8 r1 with
    | (none, r2) => (none, r2)
    | (some nb, r2) =>
      match kvTake nb r2 with
      | (args, r3) => (some { name := nm, args := args }, r3)

lemma message_rest_lt (l : List Nat) (m : Message)
    (h : (message l).1 = some m) : ((message l).2).length < l.length := by
  unfold message at h ⊢
  rcases h1 : string l with ⟨o1, r1⟩
  cases o1 with
  | none =>
    rw [h1] at h
    simp at h
  | some nm =>
    have e1 : r1.length < l.length := by
      have hs := string_rest_lt l nm (by rw [h1])
      rw [h1] at hs
      exact hs
    simp only []
    rcases h2 : getU8 r1 with ⟨o2, r2⟩
    have e2 : r2.length ≤ r1.length := by
      have hg := getU8_rest_le r1
      rw [h2] at hg
      exact hg
    cases o2 with
    | none => simp; omega
    | some nb =>
      simp only []
      rcases h3 : kvTake nb r2 with ⟨args, r3⟩
      have e3 : r3.length ≤ r2.length := by
        have hk := kvTake_rest_le nb r2
        rw [h3] at hk
        exact hk
      simp
      omega

/-- `list_of_messages` (frame/decode.rs): `iter::from_fn` that stops at end
of input or at the first `message` failure; the collected prefix is the
result and whatever follows is discarded by the caller. -/
def list_of_messages (l : List Nat) : List Message :=
  if l = [] then []
  else
    match hm : message l with
    | (none, _) => []
    | (some m, r) => m :: list_of_messages r
termination_by l.length
decreasing_by
  have h := message_rest_lt l m (by rw [hm])
  rw [hm] at h
  simpa using h

/-- `scope` / `try_from_u8::<action::Scope>` (frame/decode.rs): byte values
0..=4. -/
def scopeOf (b : Nat) : Option Scope :=
  if b = 0 then some .process
  else if b = 1 then some .session
  else if b = 2 then some .transaction
  else if b = 3 then some .request
  else if b = 4 then some .response
  else none

/-- `action` (frame/decode.rs): action type byte (`1 = SetVar`,
`2 = UnsetVar`), argument count byte (which must be 3 resp. 2), then the
scope, name and (for set-var) the typed value. -/
def action (l : List Nat) : Option Action × List Nat :=
  match getU8 l with
  | (none, r) => (none, r)
  | (some tyb, r1) =>
    if tyb = 1 ∨ tyb = 2 then
      match getU8 r1 with
      | (none, r2) => (none, r2)
      | (some nb, r2) =>
        if tyb = 1 ∧ nb = 3 then
          match getU8 r2 with
          | (none, r3) => (none, r3)
          | (some sb, r3) =>
            match scopeOf sb with
            | none => (none, r3)
            | some sc =>
              match string r3 with
              | (none, r4) => (none, r4)
              | (some nm, r4) =>
                match typed_data r4 with
                | (none, r5) => (none, r5)
                | (some v, r5) => (some (.set_var sc nm v), r5)
        else if tyb = 2 ∧ nb = 2 then
          match getU8 r2 with
          | (none, r3) => (none, r3)
          | (some sb, r3) =>
            match scopeOf sb with
            | none => (none, r3)
            | some sc =>
              match string r3 with
              | (none, r4) => (none, r4)
              | (some nm, r4) => (some (.unset_var sc nm), r4)
        else (none, r2)
    else (none, r1)

lemma action_rest_lt (l : List Nat) (a : Action)
    (h : (action l).1 = some a) : ((action l).2).length < l.length := by
  unfold action at h ⊢
  cases l with
  | nil => simp [getU8] at h
  | cons b rest =>
    rw [show getU8 (b :: rest) = (some b, rest) from rfl] at h ⊢
    simp only [] at h ⊢
    by_cases hty : b = 1 ∨ b = 2
    · rw [if_pos hty] at h ⊢
      rcases h2 : getU8 rest with ⟨o2, r2⟩
      have e2 : r2.length ≤ rest.length := by
        have hg := getU8_rest_le rest
        rw [h2] at hg
        exact hg
      cases o2 with
      | none =>
        rw [h2] at h
        simp at h
      | some nb =>
        rw [h2] at h
        simp only [] at h ⊢
        by_cases hsv : b = 1 ∧ nb = 3
        · rw [if_pos hsv] at h ⊢
          rcases h3 : getU8 r2 with ⟨o3, r3⟩
          have e3 : r3.length ≤ r2.length := by
            have hg := getU8_rest_le r2
            rw [h3] at hg
            exact hg
          cases o3 with
          | none =>
            rw [h3] at h
            simp at h
          | some sb =>
            rw [h3] at h
            simp only [] at h ⊢
            cases hsc : scopeOf sb with
            | none =>
              rw [hsc] at h
              simp at h
            | some sc =>
              rw [hsc] at h
              simp only [] at h ⊢
              rcases h4 : string r3 with ⟨o4, r4⟩
              have e4 : r4.length ≤ r3.length := by
                have hs := string_rest_le r3
                rw [h4] at hs
                exact hs
              cases o4 with
              | none =>
                rw [h4] at h
                simp at h
              | some nm =>
                rw [h4] at h
                simp only [] at h ⊢
                rcases h5 : typed_data r4 with ⟨o5, r5⟩
                have e5 : r5.length ≤ r4.length := by
                  have ht := typed_rest_le r4
                  rw [h5] at ht
                  exact ht
                cases o5 with
                | none =>
                  rw [h5] at h
                  simp at h
                | some v =>
                  simp
                  omega
        · rw [if_neg hsv] at h ⊢
          by_cases huv : b = 2 ∧ nb = 2
          · rw [if_pos huv] at h ⊢
            rcases h3 : getU8 r2 with ⟨o3, r3⟩
            have e3 : r3.length ≤ r2.length := by
              have hg := getU8_rest_le r2
              rw [h3] at hg
              exact hg
            cases o3 with
            | none =>
              rw [h3] at h
              simp at h
            | some sb =>
              rw [h3] at h
              simp only [] at h ⊢
              cases hsc : scopeOf sb with
              | none =>
                rw [hsc] at h
                simp at h
              | some sc =>
                rw [hsc] at h
                simp only [] at h ⊢
                rcases h4 : string r3 with ⟨o4, r4⟩
                have e4 : r4.length ≤ r3.length := by
                  have hs := string_rest_le r3
                  rw [h4] at hs
                  exact hs
                cases o4 with
                | none =>
                  rw [h4] at h
                  simp at h
                | some nm =>
                  simp
                  omega
          · rw [if_neg huv] at h
            simp at h
    · rw [if_neg hty] at h
      simp at h

/-- `list_of_actions` (frame/decode.rs): same `iter::from_fn` shape as
`list_of_messages`. -/
def list_of_actions (l : List Nat) : List Action :=
  if l = [] then []
  else
    match ha : action l with
    | (none, _) => []
    | (some a, r) => a :: list_of_actions r
termination_by l.length
decreasing_by
  have h := action_rest_lt l a (by rw [ha])
  rw [ha] at h
  simpa using h

/-- `kv_list` (src/spop/src/data/buf.rs): `iter::from_fn` yielding
`(key, value)` pairs until end of input or the first parse failure. -/
def kv_list (l : List Nat) : List (List Nat × Typed) :=
  if l = [] then []
  else
    match hs : string l with
    | (none, _) => []
    | (some k, r1) =>
      match ht : typed_data r1 with
      | (none, _) => []
      | (some v, r2) => (k, v) :: kv_list r2
termination_by l.length
decreasing_by
  have h1 := string_rest_lt l k (by rw [hs])
  rw [hs] at h1
  have h2 := typed_rest_le r1
  rw [ht] at h2
  simp at h1 h2 ⊢
  omega

/-- ASCII bytes of a literal key string. -/
def strBytes (s : String) : List Nat := s.toList.map Char.toNat

def supportedVersionsKey : List Nat := strBytes "supported-versions"

def versionKey : List Nat := strBytes "version"

def maxFrameSizeKey : List Nat := strBytes "max-frame-size"

def capabilitiesKey : List Nat := strBytes "capabilities"

def engineIdKey : List Nat := strBytes "engine-id"

def healthcheckKey : List Nat := strBytes "healthcheck"

def statusCodeKey : List Nat := strBytes "status-code"

def msgKey : List Nat := strBytes "message"

/-- Lookup in the `KVList` built by `collect::<KVList>()` (frame/decode.rs):
the pairs are inserted into a `HashMap` in order, so a duplicate key keeps
the last value.  The decoder `remove`s each key it reads, but every key it
reads is distinct, so plain lookup is observationally identical. -/
def kvLookup (kvs : List (List Nat × Typed)) (key : List Nat) : Option Typed :=
  (kvs.reverse.find? (fun p => p.1 == key)).map Prod.snd

/-- `KVList::string`: `String::try_from(val)` succeeds only on the string
variant. -/
def kvString (kvs : List (List Nat × Typed)) (key : List Nat) :
    Option (List Nat) :=
  match kvLookup kvs key with
  | some (.string s) => some s
  | _ => none

/-- `KVList::uint` (frame/decode.rs): any integer variant widened to `u64`
(signed values by `as u64`, i.e. sign-extension). -/
def kvUint (kvs : List (List Nat × Typed)) (key : List Nat) : Option Nat :=
  match kvLookup kvs key with
  | some (.int32 n) => some (castIToU64 n)
  | some (.uint32 n) => some n
  | some (.int64 n) => some (castIToU64 n)
  | some (.uint64 n) => some n
  | _ => none

/-- `KVList::boolean`: `bool::try_from(val)` succeeds only on the boolean
variant. -/
def kvBool (kvs : List (List Nat × Typed)) (key : List Nat) : Option Bool :=
  match kvLookup kvs key with
  | some (.boolean b) => some b
  | _ => none

/-- A byte of Rust `char::is_whitespace` restricted to ASCII, which is all
`str::trim` can strip from the one-byte characters the version and
capability lists are made of.  (Multi-byte Unicode whitespace is not
modelled; no claim depends on it.) -/
def asciiWhitespace (c : Nat) : Bool :=
  c == 32 || c == 9 || c == 10 || c == 11 || c == 12 || c == 13

/-- `str::trim` on the byte list. -/
def trimBytes (s : List Nat) : List Nat :=
  ((s.dropWhile asciiWhitespace).reverse.dropWhile asciiWhitespace).reverse

def isDigit (c : Nat) : Bool := 48 ≤ c && c ≤ 57

def digitsVal (t : List Nat) : Nat := t.foldl (fun a c => a * 10 + (c - 48)) 0

/-- `u8::from_str`: an optional leading `+`, then one or more decimal
digits, rejecting values `≥ 256` (overflow). -/
def parseU8 (s : List Nat) : Option Nat :=
  let t := match s with
    | 43 :: r => r
    | _ => s
  if t ≠ [] ∧ t.all isDigit ∧ digitsVal t < 256 then some (digitsVal t)
  else none

/-- `Version::from_str` as derived by `parse_display` for `"{major}.{minor}"`:
the lazy first capture splits at the first `.`; both sides parse as `u8`. -/
def parseVersion (s : List Nat) : Option Version :=
  match s.findIdx? (· == 46) with
  | none => none
  | some i =>
    match parseU8 (s.take i), parseU8 (s.drop (i + 1)) with
    | some a, some b => some { major := a, minor := b }
    | _, _ => none

/-- `Capability::from_str` as derived by `parse_display` with
`style = "snake_case"`. -/
def parseCapability (s : List Nat) : Option Capability :=
  if s = strBytes "fragmentation" then some .fragmentation
  else if s = strBytes "pipelining" then some .pipelining
  else if s = strBytes "async" then some .async
  else none

/-- `s.split(',')` on the byte list (`List.splitOn` has the same semantics:
`n` separators produce `n + 1` pieces, an empty input produces `[[]]`). -/
def splitComma (s : List Nat) : List (List Nat) := s.splitOn 44

/-- `s.split(',').map(|s| s.trim().parse()).collect::<Result<Vec<_>, _>>()`. -/
def parseCommaList {α : Type} (f : List Nat → Option α) (s : List Nat) :
    Option (List α) :=
  (splitComma s).mapM (fun p => f (trimBytes p))

/-- `haproxy_hello` (frame/decode.rs): collects the KV list and reads the
required keys in order; a missing key surfaces its specific error, a
malformed value surfaces `Invalid`. -/
def haproxy_hello (l : List Nat) : Except Error HaproxyHello :=
  match kvString (kv_list l) supportedVersionsKey with
  | none => .error .NoVersion
  | some s =>
    match parseCommaList parseVersion s with
    | none => .error .Invalid
    | some svs =>
      match kvUint (kv_list l) maxFrameSizeKey with
      | none => .error .NoFrameSize
      | some mfs =>
        match kvString (kv_list l) capabilitiesKey with
        | none => .error .NoCapabilities
        | some cs =>
          match parseCommaList parseCapability cs with
          | none => .error .Invalid
          | some caps =>
            .ok { supported_versions := svs, max_frame_size := mfs % 2 ^ 32,
                  capabilities := caps,
                  healthcheck := kvBool (kv_list l) healthcheckKey,
                  engine_id := kvString (kv_list l) engineIdKey }

/-- `agent_hello` (frame/decode.rs).  Note the `version` key is parsed
without the comma-split/trim, and its parse failure is `BadVersion`. -/
def agent_hello (l : List Nat) : Except Error AgentHello :=
  match kvString (kv_list l) versionKey with
  | none => .error .NoVersion
  | some s =>
    match parseVersion s with
    | none => .error .BadVersion
    | some v =>
      match kvUint (kv_list l) maxFrameSizeKey with
      | none => .error .NoFrameSize
      | some mfs =>
        match kvString (kv_list l) capabilitiesKey with
        | none => .error .NoCapabilities
        | some cs =>
          match parseCommaList parseCapability cs with
          | none => .error .Invalid
          | some caps =>
            .ok { version := v, max_frame_size := mfs % 2 ^ 32,
                  capabilities := caps }

/-- `disconnect` (frame/decode.rs): both fields are optional and default to
zero / the empty string, so this decoder is total. -/
def disconnect (l : List Nat) : Except Error Disconnect :=
  .ok { status_code := ((kvUint (kv_list l) statusCodeKey).map
          (fun n => n % 2 ^ 32)).getD 0,
        message := (kvString (kv_list l) msgKey).getD [] }

/-- `buf.get_u32()` guarded by `buf.remaining() >= 4` (frame/decode.rs
`metadata`): four big-endian bytes; no bytes are consumed on failure. -/
def getU32BE (l : List Nat) : Option Nat × List Nat :=
  match l with
  | b0 :: b1 :: b2 :: b3 :: rest =>
    (some (((b0 * 256 + b1) * 256 + b2) * 256 + b3), rest)
  | _ => (none, l)

/-- `metadata` (frame/decode.rs): flags word (truncated by
`Flags::from_bits_truncate` to the FIN and ABORT bits), then the two
varints. -/
def metadata (l : List Nat) : Option Metadata × List Nat :=
  match getU32BE l with
  | (none, r) => (none, r)
  | (some w, r1) =>
    match varint.get r1 with
    | (none, r2) => (none, r2)
    | (some sid, r2) =>
      match varint.get r2 with
      | (none, r3) => (none, r3)
      | (some fid, r3) =>
        (some { flags := w &&& 3, stream_id := sid, frame_id := fid }, r3)

/-- The frame type tag (src/spop/src/frame/ty.rs). -/
inductive FType where
  | unset
  | haproxyHello
  | haproxyDisconnect
  | haproxyNotify
  | agentHello
  | agentDisconnect
  | agentAck
deriving DecidableEq

/-- `try_from_u8::<frame::Type>`: `0, 1, 2, 3, 101, 102, 103`; anything else
fails. -/
def frameTypeOf (b : Nat) : Option FType :=
  if b = 0 then some .unset
  else if b = 1 then some .haproxyHello
  else if b = 2 then some .haproxyDisconnect
  else if b = 3 then some .haproxyNotify
  else if b = 101 then some .agentHello
  else if b = 102 then some .agentDisconnect
  else if b = 103 then some .agentAck
  else none

/-- The typed dispatch of `frame` (frame/decode.rs): Hello and Disconnect
frames require both ids zero; Notify and Ack require a nonzero `frame_id`
(the `stream_id` is not inspected); everything else, including `Unset`, is
`Invalid`. -/
def frameDispatch (ty : FType) (md : Metadata) (buf : List Nat) :
    Except Error Frame :=
  match ty with
  | .haproxyHello =>
    if md.stream_id = 0 ∧ md.frame_id = 0 then
      (haproxy_hello buf).map Frame.haproxyHello
    else .error .Invalid
  | .agentHello =>
    if md.stream_id = 0 ∧ md.frame_id = 0 then
      (agent_hello buf).map Frame.agentHello
    else .error .Invalid
  | .haproxyNotify =>
    if md.frame_id ≠ 0 then
      Except.ok (Frame.haproxyNotify
        { fragmented := md.fragmented
          stream_id := md.stream_id
          frame_id := md.frame_id
          messages := list_of_messages buf })
    else .error .Invalid
  | .agentAck =>
    if md.frame_id ≠ 0 then
      Except.ok (Frame.agentAck
        { fragmented := md.fragmented
          aborted := md.aborted
          stream_id := md.stream_id
          frame_id := md.frame_id
          actions := list_of_actions buf })
    else .error .Invalid
  | .haproxyDisconnect =>
    if md.stream_id = 0 ∧ md.frame_id = 0 then
      (disconnect buf).map Frame.haproxyDisconnect
    else .error .Invalid
  | .agentDisconnect =>
    if md.stream_id = 0 ∧ md.frame_id = 0 then
      (disconnect buf).map Frame.agentDisconnect
    else .error .Invalid
  | .unset => .error .Invalid

/-- `decode::frame` (frame/decode.rs): the type byte and the metadata are
both read (in that order, both advancing the cursor); if either fails the
frame is `Invalid`, otherwise the typed dispatch runs on the rest. -/
def frame (l : List Nat) : Except Error Frame :=
  match getU8 l with
  | (ob, r1) =>
    match metadata r1 with
    | (omd, r2) =>
      match Option.bind ob frameTypeOf, omd with
      | some ty, some md => frameDispatch ty md r2
      | _, _ => .error .Invalid

/-- Decimal rendering of an integer (Rust `Display` for `u8`). -/
def natDecBytes (n : Nat) : List Nat := (Nat.toDigits 10 n).map Char.toNat

/-- `Version`'s `Display`: `"{major}.{minor}"`. -/
def versionBytes (v : Version) : List Nat :=
  natDecBytes v.major ++ [46] ++ natDecBytes v.minor

/-- `Capability`'s `Display` (snake_case). -/
def capBytes : Capability → List Nat
  | .fragmentation => strBytes "fragmentation"
  | .pipelining => strBytes "pipelining"
  | .async => strBytes "async"

/-- `Vec::join(",")` over rendered items (frame/kv.rs `Punctuated`). -/
def joinComma (xs : List (List Nat)) : List Nat := List.intercalate [44] xs

/-- `put_kv` (src/spop/src/data/buf.rs): key string then typed value. -/
def putKV (k : List Nat) (v : Typed) : List Nat := put_string k ++ put_typed v

/-- `BufMut::put_u32`: four big-endian bytes of a `u32` value. -/
def putU32BE (w : Nat) : List Nat :=
  [w / 2 ^ 24 % 256, w / 2 ^ 16 % 256, w / 2 ^ 8 % 256, w % 256]

/-- `u32::to_be` on a little-endian host (the byte-swap).  The supported
Rust targets of this crate are little-endian, where `to_be` reverses the
four bytes of the value. -/
def swap32 (w : Nat) : Nat :=
  w % 256 * 2 ^ 24 + w / 2 ^ 8 % 256 * 2 ^ 16 + w / 2 ^ 16 % 256 * 2 ^ 8 +
    w / 2 ^ 24 % 256

/-- `encode::metadata` (frame/encode.rs):
`buf.put_u32(metadata.flags.bits().to_be())` followed by the two varints.
Note the `.to_be()` inside the already-big-endian `put_u32`. -/
def put_metadata (md : Metadata) : List Nat :=
  putU32BE (swap32 md.flags) ++ varint.put md.stream_id ++
    varint.put md.frame_id

/-- `encode::haproxy_hello` (frame/encode.rs). -/
def put_haproxy_hello (h : HaproxyHello) : List Nat :=
  putKV supportedVersionsKey
      (.string (joinComma (h.supported_versions.map versionBytes))) ++
    putKV maxFrameSizeKey (.uint32 h.max_frame_size) ++
    putKV capabilitiesKey (.string (joinComma (h.capabilities.map capBytes))) ++
    (match h.healthcheck with
      | some b => putKV healthcheckKey (.boolean b)
      | none => []) ++
    (match h.engine_id with
      | some id => putKV engineIdKey (.string id)
      | none => [])

/-- `encode::agent_hello` (frame/encode.rs). -/
def put_agent_hello (h : AgentHello) : List Nat :=
  putKV versionKey (.string (versionBytes h.version)) ++
    putKV maxFrameSizeKey (.uint32 h.max_frame_size) ++
    putKV capabilitiesKey (.string (joinComma (h.capabilities.map capBytes)))

/-- `encode::disconnect` (frame/encode.rs). -/
def put_disconnect (d : Disconnect) : List Nat :=
  putKV statusCodeKey (.uint32 d.status_code) ++
    putKV msgKey (.string d.message)

/-- One message of `encode::haproxy_notify` (frame/encode.rs): name, arg
count as a (truncating) `u8`, then the argument KV pairs. -/
def put_message (m : Message) : List Nat :=
  put_string m.name ++ [m.args.length % 256] ++
    (m.args.map (fun p => putKV p.1 p.2)).flatten

/-- `encode::action` (frame/encode.rs). -/
def put_action : Action → List Nat
  | .set_var sc nm v => [1, 3, sc.toByte] ++ put_string nm ++ put_typed v
  | .unset_var sc nm => [2, 2, sc.toByte] ++ put_string nm

/-- `encode::frame` (frame/encode.rs): type byte, metadata
(`Metadata::default()` for hello/disconnect/unset, the frame's own metadata
for notify/ack), then the body. -/
def put_frame : Frame → List Nat
  | .unset => 0 :: put_metadata mdDefault
  | .haproxyHello h => 1 :: (put_metadata mdDefault ++ put_haproxy_hello h)
  | .haproxyDisconnect d => 2 :: (put_metadata mdDefault ++ put_disconnect d)
  | .haproxyNotify n =>
    3 :: (put_metadata n.metadata ++ (n.messages.map put_message).flatten)
  | .agentHello h => 101 :: (put_metadata mdDefault ++ put_agent_hello h)
  | .agentDisconnect d => 102 :: (put_metadata mdDefault ++ put_disconnect d)
  | .agentAck a =>
    103 :: (put_metadata a.metadata ++ (a.actions.map put_action).flatten)

/-- Well-formedness of an embedded message: the name and argument keys are
(UTF-8) byte lists of Rust `String`s, the values are well-formed, and the
argument count fits the `u8` the encoder writes. -/
def wfMessage (m : Message) : Bool :=
  utf8Valid m.name && decide (m.name.length < 2 ^ 64) &&
    decide (m.args.length < 256) &&
    m.args.all (fun p =>
      utf8Valid p.1 && decide (p.1.length < 2 ^ 64) && p.2.wfb)

/-- Well-formedness of an embedded action. -/
def wfAction : Action → Bool
  | .set_var _ nm v => utf8Valid nm && decide (nm.length < 2 ^ 64) && v.wfb
  | .unset_var _ nm => utf8Valid nm && decide (nm.length < 2 ^ 64)

lemma kvTake_put (args : List (List Nat × Typed)) (extra : List Nat)
    (hwf : args.all (fun p =>
      utf8Valid p.1 && decide (p.1.length < 2 ^ 64) && p.2.wfb) = true) :
    kvTake args.length ((args.map (fun p => putKV p.1 p.2)).flatten ++ extra) =
      (args, extra) := by
  induction args with
  | nil => simp [kvTake]
  | cons p ps ih =>
    simp only [List.all_cons, Bool.and_eq_true, decide_eq_true_eq] at hwf
    obtain ⟨⟨⟨h1, h2⟩, h3⟩, h4⟩ := hwf
    have hne : putKV p.1 p.2 ++ ((ps.map (fun p => putKV p.1 p.2)).flatten ++ extra) ≠ [] := by
      unfold putKV put_string
      cases hv : varint.put p.1.length with
      | nil =>
        exfalso
        unfold varint.put at hv
        split_ifs at hv <;> simp at hv
      | cons x xs => simp
    simp only [List.map_cons, List.flatten_cons, List.length_cons, List.append_assoc]
    rw [kvTake, if_neg hne]
    have hstr : string (putKV p.1 p.2 ++
        ((ps.map (fun p => putKV p.1 p.2)).flatten ++ extra)) =
        (some p.1, put_typed p.2 ++
          ((ps.map (fun p => putKV p.1 p.2)).flatten ++ extra)) := by
      unfold putKV
      rw [List.append_assoc]
      exact string_put_string p.1 h1 h2 _
    rw [hstr]
    simp only []
    rw [typed_data_put_typed p.2 h3 _]
    simp only []
    rw [ih h4]

lemma varint_put_ne_nil (n : Nat) : varint.put n ≠ [] := by
  unfold varint.put
  split_ifs <;> simp

lemma put_string_ne_nil (s : List Nat) (r : List Nat) :
    put_string s ++ r ≠ [] := by
  unfold put_string
  cases hv : varint.put s.length with
  | nil => exact absurd hv (varint_put_ne_nil _)
  | cons x xs => simp

/-- Round trip of one encoded message on any trailing buffer. -/
lemma message_put_message (m : Message) (extra : List Nat)
    (hwf : wfMessage m = true) :
    message (put_message m ++ extra) = (some m, extra) := by
  unfold wfMessage at hwf
  simp only [Bool.and_eq_true, decide_eq_true_eq] at hwf
  obtain ⟨⟨⟨h1, h2⟩, h3⟩, h4⟩ := hwf
  unfold message put_message
  rw [List.append_assoc, List.append_assoc]
  rw [string_put_string m.name h1 h2 _]
  simp only [List.cons_append, List.nil_append, getU8]
  rw [Nat.mod_eq_of_lt h3]
  rw [kvTake_put m.args extra h4]

/-- Round trip of one encoded action on any trailing buffer. -/
lemma action_put_action (a : Action) (extra : List Nat)
    (hwf : wfAction a = true) :
    action (put_action a ++ extra) = (some a, extra) := by
  cases a with
  | set_var sc nm v =>
    unfold wfAction at hwf
    simp only [Bool.and_eq_true, decide_eq_true_eq] at hwf
    obtain ⟨⟨h1, h2⟩, h3⟩ := hwf
    unfold action put_action
    simp only [List.cons_append, List.nil_append, getU8]
    norm_num
    have hsc : scopeOf sc.toByte = some sc := by
      cases sc <;> rfl
    rw [hsc]
    simp only []
    rw [string_put_string nm h1 h2 _]
    simp only []
    rw [typed_data_put_typed v h3 extra]
  | unset_var sc nm =>
    unfold wfAction at hwf
    simp only [Bool.and_eq_true, decide_eq_true_eq] at hwf
    obtain ⟨h1, h2⟩ := hwf
    unfold action put_action
    simp only [List.cons_append, List.nil_append, getU8]
    norm_num
    have hsc : scopeOf sc.toByte = some sc := by
      cases sc <;> rfl
    rw [hsc]
    simp only []
    rw [string_put_string nm h1 h2 extra]

/-- The message iterator parses an encoded prefix exactly and stops at the
first malformed entry. -/
lemma list_of_messages_put (msgs : List Message) (junk : List Nat)
    (hwf : msgs.all wfMessage = true) (hjunk : (message junk).1 = none) :
    list_of_messages ((msgs.map put_message).flatten ++ junk) = msgs := by
  induction msgs with
  | nil =>
    simp only [List.map_nil, List.flatten_nil, List.nil_append]
    by_cases hj : junk = []
    · rw [list_of_messages, if_pos hj]
    · rw [list_of_messages, if_neg hj]
      rcases hm : message junk with ⟨o, r⟩
      rw [hm] at hjunk
      simp at hjunk
      subst hjunk
      simp
  | cons m ms ih =>
    simp only [List.all_cons, Bool.and_eq_true] at hwf
    simp only [List.map_cons, List.flatten_cons, List.append_assoc]
    have hne : put_message m ++ ((ms.map put_message).flatten ++ junk) ≠ [] := by
      unfold put_message
      rw [List.append_assoc, List.append_assoc]
      exact put_string_ne_nil _ _
    rw [list_of_messages, if_neg hne]
    rw [message_put_message m _ hwf.1]
    simp only []
    rw [ih hwf.2]

/-- The action iterator parses an encoded prefix exactly and stops at the
first malformed entry. -/
lemma list_of_actions_put (acts : List Action) (junk : List Nat)
    (hwf : acts.all wfAction = true) (hjunk : (action junk).1 = none) :
    list_of_actions ((acts.map put_action).flatten ++ junk) = acts := by
  induction acts with
  | nil =>
    simp only [List.map_nil, List.flatten_nil, List.nil_append]
    by_cases hj : junk = []
    · rw [list_of_actions, if_pos hj]
    · rw [list_of_actions, if_neg hj]
      rcases hm : action junk with ⟨o, r⟩
      rw [hm] at hjunk
      simp at hjunk
      subst hjunk
      simp
  | cons a as ih =>
    simp only [List.all_cons, Bool.and_eq_true] at hwf
    simp only [List.map_cons, List.flatten_cons, List.append_assoc]
    have hne : put_action a ++ ((as.map put_action).flatten ++ junk) ≠ [] := by
      cases a <;> simp [put_action]
    rw [list_of_actions, if_neg hne]
    rw [action_put_action a _ hwf.1]
    simp only []
    rw [ih hwf.2]

lemma getU32BE_putU32BE (w : Nat) (h : w < 2 ^ 32) (r : List Nat) :
    getU32BE (putU32BE w ++ r) = (some w, r) := by
  unfold getU32BE putU32BE
  simp only [List.cons_append, List.nil_append]
  refine Prod.ext ?_ rfl
  simp only [Option.some.injEq]
  omega

/-- Raw wire bytes of a frame header followed by a payload: type byte,
big-endian flags word, the two ids as varints.  (Built directly from the
wire grammar, independently of the encoder, so that decoder-side theorems
quantify over arbitrary well-formed headers.) -/
def frameBytes (t flags sid fid : Nat) (payload : List Nat) : List Nat :=
  t :: (putU32BE flags ++ (varint.put sid ++ (varint.put fid ++ payload)))

/-- Decoding a raw header dispatches on the type byte with the metadata
`{flags & 3, sid, fid}` and the payload as the remaining buffer. -/
lemma frame_frameBytes (t flags sid fid : Nat) (payload : List Nat)
    (hf : flags < 2 ^ 32) (hs : sid < 2 ^ 64) (hfid : fid < 2 ^ 64) :
    frame (frameBytes t flags sid fid payload) =
      match frameTypeOf t with
      | some ty => frameDispatch ty
          { flags := flags &&& 3, stream_id := sid, frame_id := fid } payload
      | none => .error .Invalid := by
  unfold frame frameBytes
  simp only [getU8]
  have hmd : metadata (putU32BE flags ++
      (varint.put sid ++ (varint.put fid ++ payload))) =
      (some { flags := flags &&& 3, stream_id := sid, frame_id := fid },
        payload) := by
    unfold metadata
    rw [getU32BE_putU32BE flags hf _]
    simp only []
    rw [varint.get_put sid hs _]
    simp only []
    rw [varint.get_put fid hfid _]
  rw [hmd]
  rw [show Option.bind (some t) frameTypeOf = frameTypeOf t from rfl]
  cases hft : frameTypeOf t <;> simp

/-- C2 counterexample: a `HaproxyNotify` frame whose `stream_id` is zero
(flags = FIN, `stream_id = 0`, `frame_id = 1`, empty payload) is accepted by
the decoder, although the claim says any notify with a zero `stream_id` is
rejected as `Invalid`. -/
theorem frame_notify_zero_stream_id_accepted :
    frame [3, 0, 0, 0, 1, 0, 1] =
      Except.ok (Frame.haproxyNotify
        { fragmented := false, stream_id := 0, frame_id := 1,
          messages := [] }) := by
  have hb : frame [3, 0, 0, 0, 1, 0, 1] =
      frame (frameBytes 3 1 0 1 []) := rfl
  rw [hb, frame_frameBytes 3 1 0 1 [] (by norm_num) (by norm_num) (by norm_num)]
  simp only [show frameTypeOf 3 = some FType.haproxyNotify from by decide]
  unfold frameDispatch
  rw [if_pos (by decide : (1 : Nat) ≠ 0)]
  rw [list_of_messages, if_pos rfl]
  rfl

/-- C2 (amended): the decoder rejects Hello and Disconnect frames whose
`stream_id` or `frame_id` is nonzero, and rejects Notify and Ack frames
whose `frame_id` is zero; a Notify or Ack whose `frame_id` is nonzero is
accepted no matter its `stream_id` (the `stream_id = 0` check the claim
describes is not performed), and a Hello or Disconnect with both ids zero
decodes by its payload decoder alone. -/
theorem frame_metadata_constraints (flags sid fid : Nat) (payload : List Nat)
    (hf : flags < 2 ^ 32) (hs : sid < 2 ^ 64) (hfid : fid < 2 ^ 64) :
    ((sid ≠ 0 ∨ fid ≠ 0) →
      frame (frameBytes 1 flags sid fid payload) = .error .Invalid ∧
      frame (frameBytes 101 flags sid fid payload) = .error .Invalid ∧
      frame (frameBytes 2 flags sid fid payload) = .error .Invalid ∧
      frame (frameBytes 102 flags sid fid payload) = .error .Invalid) ∧
    (fid = 0 →
      frame (frameBytes 3 flags sid fid payload) = .error .Invalid ∧
      frame (frameBytes 103 flags sid fid payload) = .error .Invalid) ∧
    (fid ≠ 0 →
      frame (frameBytes 3 flags sid fid payload) =
        Except.ok (Frame.haproxyNotify
          { fragmented := (Metadata.mk (flags &&& 3) sid fid).fragmented
            stream_id := sid
            frame_id := fid
            messages := list_of_messages payload }) ∧
      frame (frameBytes 103 flags sid fid payload) =
        Except.ok (Frame.agentAck
          { fragmented := (Metadata.mk (flags &&& 3) sid fid).fragmented
            aborted := (Metadata.mk (flags &&& 3) sid fid).aborted
            stream_id := sid
            frame_id := fid
            actions := list_of_actions payload })) ∧
    (sid = 0 ∧ fid = 0 →
      frame (frameBytes 1 flags sid fid payload) =
        (haproxy_hello payload).map Frame.haproxyHello ∧
      frame (frameBytes 101 flags sid fid payload) =
        (agent_hello payload).map Frame.agentHello ∧
      frame (frameBytes 2 flags sid fid payload) =
        (disconnect payload).map Frame.haproxyDisconnect ∧
      frame (frameBytes 102 flags sid fid payload) =
        (disconnect payload).map Frame.agentDisconnect) := by
  have h1 := frame_frameBytes 1 flags sid fid payload hf hs hfid
  have h2 := frame_frameBytes 2 flags sid fid payload hf hs hfid
  have h3 := frame_frameBytes 3 flags sid fid payload hf hs hfid
  have h101 := frame_frameBytes 101 flags sid fid payload hf hs hfid
  have h102 := frame_frameBytes 102 flags sid fid payload hf hs hfid
  have h103 := frame_frameBytes 103 flags sid fid payload hf hs hfid
  simp only [show frameTypeOf 1 = some FType.haproxyHello from by decide] at h1
  simp only [show frameTypeOf 2 = some FType.haproxyDisconnect from by decide]
    at h2
  simp only [show frameTypeOf 3 = some FType.haproxyNotify from by decide] at h3
  simp only [show frameTypeOf 101 = some FType.agentHello from by decide]
    at h101
  simp only [show frameTypeOf 102 = some FType.agentDisconnect from by decide]
    at h102
  simp only [show frameTypeOf 103 = some FType.agentAck from by decide] at h103
  unfold frameDispatch at h1 h2 h3 h101 h102 h103
  simp only [] at h1 h2 h3 h101 h102 h103
  refine ⟨fun hne => ?_, fun h0 => ?_, fun hnz => ?_, fun hz => ?_⟩
  · have hcond : ¬ ((Metadata.mk (flags &&& 3) sid fid).stream_id = 0 ∧
        (Metadata.mk (flags &&& 3) sid fid).frame_id = 0) := by
      simp only [Metadata.mk.injEq]
      tauto
    rw [if_neg hcond] at h1 h2 h101 h102
    exact ⟨h1, h101, h2, h102⟩
  · have hcond : ¬ ((Metadata.mk (flags &&& 3) sid fid).frame_id ≠ 0) := by
      simpa using h0
    rw [if_neg hcond] at h3 h103
    exact ⟨h3, h103⟩
  · have hcond : (Metadata.mk (flags &&& 3) sid fid).frame_id ≠ 0 := by
      simpa using hnz
    rw [if_pos hcond] at h3 h103
    exact ⟨h3, h103⟩
  · have hcond : (Metadata.mk (flags &&& 3) sid fid).stream_id = 0 ∧
        (Metadata.mk (flags &&& 3) sid fid).frame_id = 0 := by
      simpa using hz
    rw [if_pos hcond] at h1 h2 h101 h102
    exact ⟨h1, h101, h2, h102⟩

/-- Witness for C2 at concrete headers (`flags = 1`, ids `5`/`7`; and a
notify with `stream_id = 0`, `frame_id = 7`, accepted). -/
theorem frame_metadata_constraints_witness :
    (frame (frameBytes 1 1 5 7 []) = .error .Invalid ∧
     frame (frameBytes 101 1 5 7 []) = .error .Invalid ∧
     frame (frameBytes 2 1 5 7 []) = .error .Invalid ∧
     frame (frameBytes 102 1 5 7 []) = .error .Invalid) ∧
    (frame (frameBytes 3 1 0 7 []) =
      Except.ok (Frame.haproxyNotify
        { fragmented := (Metadata.mk ((1 : Nat) &&& 3) 0 7).fragmented
          stream_id := 0
          frame_id := 7
          messages := list_of_messages [] })) :=
  ⟨(frame_metadata_constraints 1 5 7 [] (by norm_num) (by norm_num)
      (by norm_num)).1 (Or.inl (by norm_num)),
   ((frame_metadata_constraints 1 0 7 [] (by norm_num) (by norm_num)
      (by norm_num)).2.2.1 (by norm_num)).1⟩

/-- C10: decoding the payload of a `HaproxyNotify` or `AgentAck` frame is
total: for any well-formed header with nonzero `frame_id` and ANY payload
bytes the frame decodes successfully, carrying the messages (resp. actions)
parsed by the prefix iterator; and that iterator parses an encoded prefix
exactly, stopping silently at the first malformed entry and discarding the
remaining bytes. -/
theorem notify_ack_payload_total (flags sid fid : Nat) (payload : List Nat)
    (hf : flags < 2 ^ 32) (hs : sid < 2 ^ 64) (hfid : fid < 2 ^ 64)
    (h0 : fid ≠ 0) :
    frame (frameBytes 3 flags sid fid payload) =
      Except.ok (Frame.haproxyNotify
        { fragmented := (Metadata.mk (flags &&& 3) sid fid).fragmented
          stream_id := sid
          frame_id := fid
          messages := list_of_messages payload }) ∧
    frame (frameBytes 103 flags sid fid payload) =
      Except.ok (Frame.agentAck
        { fragmented := (Metadata.mk (flags &&& 3) sid fid).fragmented
          aborted := (Metadata.mk (flags &&& 3) sid fid).aborted
          stream_id := sid
          frame_id := fid
          actions := list_of_actions payload }) ∧
    (∀ (msgs : List Message) (junk : List Nat), msgs.all wfMessage = true →
      (message junk).1 = none →
      list_of_messages ((msgs.map put_message).flatten ++ junk) = msgs) ∧
    (∀ (acts : List Action) (junk : List Nat), acts.all wfAction = true →
      (action junk).1 = none →
      list_of_actions ((acts.map put_action).flatten ++ junk) = acts) := by
  have h3 := frame_frameBytes 3 flags sid fid payload hf hs hfid
  have h103 := frame_frameBytes 103 flags sid fid payload hf hs hfid
  simp only [show frameTypeOf 3 = some FType.haproxyNotify from by decide] at h3
  simp only [show frameTypeOf 103 = some FType.agentAck from by decide] at h103
  unfold frameDispatch at h3 h103
  simp only [] at h3 h103
  have hcond : (Metadata.mk (flags &&& 3) sid fid).frame_id ≠ 0 := by
    simpa using h0
  rw [if_pos hcond] at h3 h103
  exact ⟨h3, h103, list_of_messages_put, list_of_actions_put⟩

/-- Witness for C10: concrete header, one message, junk byte `0xC8` (a
length-200 string prefix with no body, so `message` fails on it). -/
theorem notify_ack_payload_total_witness :
    frame (frameBytes 3 1 1 1 [200]) =
      Except.ok (Frame.haproxyNotify
        { fragmented := (Metadata.mk ((1 : Nat) &&& 3) 1 1).fragmented
          stream_id := 1
          frame_id := 1
          messages := list_of_messages [200] }) ∧
    list_of_messages ((([{ name := [97], args := [] }] :
        List Message).map put_message).flatten ++ [200]) =
      [{ name := [97], args := [] }] :=
  ⟨(notify_ack_payload_total 1 1 1 [200] (by norm_num) (by norm_num)
      (by norm_num) (by norm_num)).1,
   (notify_ack_payload_total 1 1 1 [200] (by norm_num) (by norm_num)
      (by norm_num) (by norm_num)).2.2.1 [{ name := [97], args := [] }] [200]
      (by decide) (by decide)⟩

/-- C1: the round trip loses the metadata flags.  `encode::metadata` writes
`put_u32(flags.bits().to_be())`; `put_u32` is already big-endian, so on the
little-endian hosts this crate targets the FIN/ABORT bits are emitted into
the wrong byte, and `decode::metadata`'s `from_bits_truncate(get_u32())`
drops them.  The evaluation below shows `decode(encode(F)) ≠ F` for the
non-fragmented aborted ack of the repo's own `frames.rs` `test_frame` data
(shrunk to small ids and an empty action list): the decoded frame comes back
with `fragmented = true` and `aborted = false`. -/
theorem frame_roundtrip_flags_lost :
    frame (put_frame (Frame.agentAck
      { fragmented := false, aborted := true, stream_id := 1, frame_id := 1,
        actions := [] })) =
      Except.ok (Frame.agentAck
      { fragmented := true, aborted := false, stream_id := 1, frame_id := 1,
        actions := [] }) ∧
    Frame.agentAck
      { fragmented := true, aborted := false, stream_id := 1, frame_id := 1,
        actions := [] } ≠
    Frame.agentAck
      { fragmented := false, aborted := true, stream_id := 1, frame_id := 1,
        actions := [] } := by
  constructor
  · have henc : put_frame (Frame.agentAck
        { fragmented := false, aborted := true, stream_id := 1, frame_id := 1,
          actions := [] }) = [103, 3, 0, 0, 0, 1, 1] := by
      unfold put_frame Ack.metadata put_metadata swap32 putU32BE
      simp only [List.map_nil, List.flatten_nil, List.append_nil]
      norm_num [varint.put, show ((1 : Nat) ||| 2) = 3 from by decide]
    rw [henc]
    have hb : ([103, 3, 0, 0, 0, 1, 1] : List Nat) =
        frameBytes 103 (3 * 2 ^ 24) 1 1 [] := by
      unfold frameBytes putU32BE
      norm_num [varint.put]
    rw [hb, frame_frameBytes 103 (3 * 2 ^ 24) 1 1 [] (by norm_num)
      (by norm_num) (by norm_num)]
    simp only [show frameTypeOf 103 = some FType.agentAck from by decide]
    unfold frameDispatch
    rw [if_pos (by decide : (1 : Nat) ≠ 0)]
    rw [list_of_actions, if_pos rfl]
    simp only [Metadata.fragmented, Metadata.is_final, Metadata.aborted]
    norm_num [show ((3 * 2 ^ 24 : Nat) &&& 3) = 0 from by decide,
      show ((50331648 : Nat) &&& 3 &&& 2) = 0 from by decide,
      show ((50331648 : Nat) &&& 3 &&& 1) = 0 from by decide]
  · decide

/-- `Framer::read_frame` (src/spop/src/frame/framer.rs) over a byte stream:
read a big-endian `u32` length (`Io` if the stream ends first); if it is
within the configured maximum, read exactly that many body bytes (`Io` on a
short read) and decode them, surfacing any decode error as `Invalid`;
otherwise fail with `BadFrameSize`. -/
def read_frame (max_frame_size : Nat) (input : List Nat) : Except Error Frame :=
  match input with
  | b0 :: b1 :: b2 :: b3 :: rest =>
    if ((b0 * 256 + b1) * 256 + b2) * 256 + b3 ≤ max_frame_size then
      if ((b0 * 256 + b1) * 256 + b2) * 256 + b3 ≤ rest.length then
        (frame (rest.take (((b0 * 256 + b1) * 256 + b2) * 256 + b3))).mapError
          (fun _ => Error.Invalid)
      else .error .Io
    else .error .BadFrameSize
  | _ => .error .Io

/-- C9: the framer fails with `BadFrameSize` exactly when the big-endian
`u32` length prefix exceeds the configured maximum; a stream shorter than
the four length bytes is `Io`; and when the length is within bounds and the
body is present, exactly `len` body bytes are decoded, with any frame-decoder
error surfaced as `Invalid`. -/
theorem framer_read_frame_spec (max_frame_size b0 b1 b2 b3 : Nat)
    (rest : List Nat) :
    (read_frame max_frame_size (b0 :: b1 :: b2 :: b3 :: rest) =
        .error .BadFrameSize ↔
      max_frame_size < ((b0 * 256 + b1) * 256 + b2) * 256 + b3) ∧
    (∀ input : List Nat, input.length < 4 →
      read_frame max_frame_size input = .error .Io) ∧
    (((b0 * 256 + b1) * 256 + b2) * 256 + b3 ≤ max_frame_size →
      ((b0 * 256 + b1) * 256 + b2) * 256 + b3 ≤ rest.length →
      read_frame max_frame_size (b0 :: b1 :: b2 :: b3 :: rest) =
        (frame (rest.take (((b0 * 256 + b1) * 256 + b2) * 256 + b3))).mapError
          (fun _ => Error.Invalid)) := by
  refine ⟨?_, ?_, ?_⟩
  · unfold read_frame
    constructor
    · intro h
      simp only [] at h
      by_contra hgt
      rw [if_pos (by omega)] at h
      by_cases hlen : ((b0 * 256 + b1) * 256 + b2) * 256 + b3 ≤ rest.length
      · rw [if_pos hlen] at h
        cases hfr : frame (rest.take (((b0 * 256 + b1) * 256 + b2) * 256 + b3))
          with
        | ok f => rw [hfr] at h; simp [Except.mapError] at h
        | error e => rw [hfr] at h; simp [Except.mapError] at h
      · rw [if_neg hlen] at h
        simp at h
    · intro h
      simp only []
      rw [if_neg (by omega)]
  · intro input hlen
    match input with
    | [] => rfl
    | [_] => rfl
    | [_, _] => rfl
    | [_, _, _] => rfl
    | _ :: _ :: _ :: _ :: _ =>
      simp only [List.length_cons] at hlen
      omega
  · intro h1 h2
    unfold read_frame
    simp only []
    rw [if_pos h1, if_pos h2]

/-- Witness for C9 at a concrete stream: length prefix 2 with
`max_frame_size = 1`, and length prefix 0 with `max_frame_size = 16384`. -/
theorem framer_read_frame_spec_witness :
    read_frame 1 [0, 0, 0, 2, 9, 9] = .error .BadFrameSize ∧
    read_frame 16384 [0] = .error .Io ∧
    read_frame 16384 [0, 0, 0, 0] =
      (frame (([] : List Nat).take 0)).mapError (fun _ => Error.Invalid) :=
  ⟨(framer_read_frame_spec 1 0 0 0 2 [9, 9]).1.mpr (by norm_num),
   (framer_read_frame_spec 16384 0 0 0 0 []).2.1 [0] (by norm_num),
   by
    have h := (framer_read_frame_spec 16384 0 0 0 0 []).2.2 (by norm_num)
      (by norm_num)
    simpa using h⟩

/-- `Negotiated::supports_fragmentation`.  Modelled from the spec: the
method's body is not in the snapshot (only its callers in
src/spoa/src/state/{connect,process}.rs are); per the spec, fragmentation
is supported exactly when the `Fragmentation` capability was negotiated. -/
def supports_fragmentation (caps : List Capability) : Bool :=
  caps.contains .fragmentation

/-- The `DashMap<(StreamId, FrameId), Vec<T>>` of `Table<T>`
(src/spop/src/frame/fragment.rs), embedded as the finite map it implements:
a function from keys to optional buffered value lists. -/
def ReasmTable (α : Type) : Type := (Nat × Nat) → Option (List α)

/-- The empty table (`Table::default()`). -/
def emptyTable {α : Type} : ReasmTable α := fun _ => none

/-- `Table::reassemble` (src/spop/src/frame/fragment.rs): the occupied /
vacant entry dispatch.  Occupied & fragmented: append in place, yield
nothing; occupied & final: remove the entry and yield the buffer plus the
new values; vacant & fragmented: insert, yield nothing; vacant & final:
yield the new values without touching the table.  The Rust signature is
`Result<Option<Vec<T>>>` but no path errs, so the embedding returns the
pair directly. -/
def reassemble {α : Type} (t : ReasmTable α) (fragmented : Bool)
    (k : Nat × Nat) (v : List α) : ReasmTable α × Option (List α) :=
  match t k with
  | some buf =>
    if fragmented then
      (fun k0 => if k0 = k then some (buf ++ v) else t k0, none)
    else
      (fun k0 => if k0 = k then none else t k0, some (buf ++ v))
  | none =>
    if fragmented then
      (fun k0 => if k0 = k then some v else t k0, none)
    else (t, some v)

/-- One `reassemble` invocation, for describing call sequences. -/
structure Call (α : Type) where
  frag : Bool
  key : Nat × Nat
  val : List α

/-- The table state after a sequence of `reassemble` calls starting from an
empty table. -/
def runTable {α : Type} (cs : List (Call α)) : ReasmTable α :=
  cs.foldl (fun t c => (reassemble t c.frag c.key c.val).1) emptyTable

/-- The calls of a sequence that carry the key `k`, in order. -/
def keyCalls {α : Type} (k : Nat × Nat) (cs : List (Call α)) : List (Call α) :=
  cs.filter (fun c => decide (c.key = k))

/-- Whether the most recent call with key `k` was fragmented (`false` when
there has been no such call). -/
def lastFragOf {α : Type} (k : Nat × Nat) (cs : List (Call α)) : Bool :=
  ((keyCalls k cs).getLast?.map Call.frag).getD false

/-- The concatenation, in arrival order, of every value list passed for key
`k` since the table last had no entry for it (reset by each final call). -/
def pendingOf {α : Type} (k : Nat × Nat) (cs : List (Call α)) : List α :=
  (keyCalls k cs).foldl (fun acc c => if c.frag then acc ++ c.val else []) []

lemma fst_reassemble_apply {α : Type} (t : ReasmTable α) (frag : Bool)
    (k : Nat × Nat) (v : List α) (k0 : Nat × Nat) :
    (reassemble t frag k v).1 k0 =
      if k0 = k then
        (if frag then some ((t k).getD [] ++ v) else none)
      else t k0 := by
  unfold reassemble
  cases hg : t k with
  | some buf =>
    cases frag with
    | true =>
      simp only [if_true]
      by_cases h : k0 = k <;> simp [h]
    | false =>
      simp only [if_false]
      by_cases h : k0 = k <;> simp [h]
  | none =>
    cases frag with
    | true =>
      simp only [if_true]
      by_cases h : k0 = k <;> simp [h]
    | false =>
      simp only [if_false]
      by_cases h : k0 = k <;> simp [h, hg]

lemma snd_reassemble {α : Type} (t : ReasmTable α) (frag : Bool)
    (k : Nat × Nat) (v : List α) :
    (reassemble t frag k v).2 =
      if frag then none else some ((t k).getD [] ++ v) := by
  unfold reassemble
  cases hg : t k with
  | some buf => cases frag <;> simp
  | none => cases frag <;> simp

lemma pendingOf_eq_nil {α : Type} (k : Nat × Nat) (cs : List (Call α))
    (h : lastFragOf k cs = false) : pendingOf k cs = [] := by
  unfold lastFragOf at h
  unfold pendingOf
  rcases hlast : (keyCalls k cs).getLast? with _ | c
  · rw [List.getLast?_eq_none_iff] at hlast
    rw [hlast]
    rfl
  · have hsplit := List.getLast?_eq_some_iff.mp hlast
    obtain ⟨init, hinit⟩ := hsplit
    rw [hlast] at h
    simp at h
    rw [hinit, List.foldl_append]
    simp [h]

lemma runTable_apply {α : Type} (cs : List (Call α)) (k : Nat × Nat) :
    runTable cs k =
      if lastFragOf k cs then some (pendingOf k cs) else none := by
  induction cs using List.reverseRecOn with
  | nil => simp [runTable, emptyTable, lastFragOf, keyCalls, pendingOf]
  | append_singleton cs c ih =>
    have hrun : runTable (cs ++ [c]) =
        (reassemble (runTable cs) c.frag c.key c.val).1 := by
      unfold runTable
      rw [List.foldl_append]
      rfl
    rw [hrun, fst_reassemble_apply, ih]
    by_cases hk : k = c.key
    · have hkc : keyCalls k (cs ++ [c]) = keyCalls k cs ++ [c] := by
        unfold keyCalls
        rw [List.filter_append]
        simp [hk]
      have hlast : lastFragOf k (cs ++ [c]) = c.frag := by
        unfold lastFragOf
        rw [hkc, List.getLast?_concat]
        rfl
      have hpend : pendingOf k (cs ++ [c]) =
          if c.frag then pendingOf k cs ++ c.val else [] := by
        unfold pendingOf
        rw [hkc, List.foldl_append]
        rfl
      rw [if_pos hk, ← hk, hlast, hpend]
      cases hcf : c.frag with
      | true =>
        simp only [if_true]
        cases hlf : lastFragOf k cs with
        | true => simp [ih, hlf]
        | false =>
          rw [pendingOf_eq_nil k cs hlf]
          simp [ih, hlf]
      | false => simp
    · rw [if_neg hk]
      have hkc2 : keyCalls k (cs ++ [c]) = keyCalls k cs := by
        unfold keyCalls
        rw [List.filter_append]
        have hne : ¬ c.key = k := fun hh => hk hh.symm
        simp [List.filter_cons, hne]
      unfold lastFragOf pendingOf
      rw [hkc2]

/-- C3: after any sequence of `reassemble` calls starting from the empty
table, a key has an entry iff the most recent call with that key was
fragmented, and the entry is the concatenation, in arrival order, of every
value list passed for that key since the table last had no entry for it; a
further fragmented call returns nothing and only appends (leaving all other
keys untouched), while a further final call removes the entry and returns
that concatenation extended with the new values. -/
theorem reassembly_table_spec {α : Type} (cs : List (Call α)) (k : Nat × Nat)
    (v : List α) :
    (runTable cs k =
      if lastFragOf k cs then some (pendingOf k cs) else none) ∧
    (reassemble (runTable cs) true k v).2 = none ∧
    (reassemble (runTable cs) true k v).1 k =
      some (pendingOf k cs ++ v) ∧
    (reassemble (runTable cs) false k v).2 = some (pendingOf k cs ++ v) ∧
    (reassemble (runTable cs) false k v).1 k = none ∧
    (∀ (frag : Bool) (k0 : Nat × Nat), k0 ≠ k →
      (reassemble (runTable cs) frag k v).1 k0 = runTable cs k0) := by
  have hrt := runTable_apply cs k
  have hbuf : (runTable cs k).getD [] = pendingOf k cs := by
    rw [hrt]
    cases hlf : lastFragOf k cs with
    | true => simp
    | false =>
      rw [pendingOf_eq_nil k cs hlf]
      simp
  refine ⟨hrt, ?_, ?_, ?_, ?_, ?_⟩
  · rw [snd_reassemble]
    simp
  · rw [fst_reassemble_apply, if_pos rfl]
    simp [hbuf]
  · rw [snd_reassemble]
    simp [hbuf]
  · rw [fst_reassemble_apply, if_pos rfl]
    simp
  · intro frag k0 hne
    rw [fst_reassemble_apply, if_neg hne]

/-- Witness for C3: one fragmented call on key `(1, 1)`, then inspection of
that key and an untouched key `(2, 2)`. -/
theorem reassembly_table_spec_witness :
    (runTable ([⟨true, (1, 1), [5]⟩] : List (Call Nat)) (1, 1) =
      if lastFragOf (1, 1) ([⟨true, (1, 1), [5]⟩] : List (Call Nat)) then
        some (pendingOf (1, 1) ([⟨true, (1, 1), [5]⟩] : List (Call Nat)))
      else none) ∧
    (reassemble (runTable ([⟨true, (1, 1), [5]⟩] : List (Call Nat)))
        false (1, 1) [7]).1 (2, 2) =
      runTable ([⟨true, (1, 1), [5]⟩] : List (Call Nat)) (2, 2) :=
  ⟨(reassembly_table_spec ([⟨true, (1, 1), [5]⟩] : List (Call Nat))
      (1, 1) [7]).1,
   (reassembly_table_spec ([⟨true, (1, 1), [5]⟩] : List (Call Nat))
      (1, 1) [7]).2.2.2.2.2 false (2, 2) (by decide)⟩

/-- `Negotiated` (src/spoa/src/state/handshake.rs). -/
structure Negotiated where
  version : Version
  max_frame_size : Nat
  capabilities : List Capability
deriving DecidableEq

/-- The derived `Ord` of `Version` (src/spop/src/version.rs) as a boolean
`≤`: lexicographic on `(major, minor)`. -/
def vleb (a b : Version) : Bool :=
  decide (a.major < b.major ∨ (a.major = b.major ∧ a.minor ≤ b.minor))

/-- `negotiate` (src/spoa/src/state/handshake.rs): sort both version lists,
walk the client's from highest to lowest and take the first version the
agent also supports (`NoVersion` if none), clamp the frame size with
`cmp::min`, and intersect the capability sets.  `HashSet` iteration order
is unspecified, so the intersection is embedded as a duplicate-free filter;
only its membership is meaningful. -/
def negotiate (supported_versions : List Version) (max_frame_size : Nat)
    (capabilities : List Capability) (hello : HaproxyHello) :
    Except Error Negotiated :=
  match (hello.supported_versions.mergeSort vleb).reverse.find?
      (fun version =>
        (supported_versions.mergeSort vleb).reverse.any
          (fun v => v == version)) with
  | none => .error .NoVersion
  | some version =>
    .ok { version := version,
          max_frame_size := min hello.max_frame_size max_frame_size,
          capabilities :=
            hello.capabilities.dedup.filter
              (fun c => decide (c ∈ capabilities)) }

lemma vleb_refl (a : Version) : vleb a a = true := by
  simp [vleb]

lemma vleb_trans : ∀ a b c : Version,
    vleb a b = true → vleb b c = true → vleb a c = true := by
  intro a b c hab hbc
  simp only [vleb, decide_eq_true_eq] at hab hbc ⊢
  omega

lemma vleb_total : ∀ a b : Version, (vleb a b || vleb b a) = true := by
  intro a b
  simp only [vleb, Bool.or_eq_true, decide_eq_true_eq]
  omega

lemma any_beq_iff (l : List Version) (v : Version) :
    (l.reverse.any (fun x => x == v)) = true ↔ v ∈ l := by
  simp only [List.any_eq_true, List.mem_reverse, beq_iff_eq]
  constructor
  · rintro ⟨x, hx, rfl⟩
    exact hx
  · intro hv
    exact ⟨v, hv, rfl⟩

lemma find?_reverse_eq_none {p : Version → Bool} (l : List Version) :
    l.reverse.find? p = none ↔ ∀ v ∈ l, ¬ p v = true := by
  rw [List.find?_eq_none]
  constructor
  · intro h v hv
    exact h v (List.mem_reverse.mpr hv)
  · intro h v hv
    exact h v (List.mem_reverse.mp hv)

lemma find?_reverse_sorted_max {p : Version → Bool} :
    ∀ (l : List Version),
      l.Pairwise (fun a b => vleb a b = true) →
      ∀ v, l.reverse.find? p = some v →
        v ∈ l ∧ p v = true ∧ ∀ w ∈ l, p w = true → vleb w v = true := by
  intro l
  induction l using List.reverseRecOn with
  | nil =>
    intro _ v hv
    simp at hv
  | append_singleton init a ih =>
    intro hp v hv
    rw [List.reverse_append] at hv
    simp only [List.reverse_cons, List.reverse_nil, List.nil_append,
      List.cons_append] at hv
    rw [List.pairwise_append] at hp
    obtain ⟨hpi, _, hcross⟩ := hp
    by_cases hpa : p a = true
    · rw [List.find?_cons_of_pos _ hpa] at hv
      injection hv with hv
      subst hv
      refine ⟨List.mem_append_right _ (List.mem_singleton.mpr rfl), hpa, ?_⟩
      intro w hw _
      rcases List.mem_append.mp hw with hwi | hwa
      · exact hcross w hwi a (List.mem_singleton.mpr rfl)
      · rw [List.mem_singleton.mp hwa]
        exact vleb_refl a
    · rw [List.find?_cons_of_neg _ hpa] at hv
      obtain ⟨hm, hpv, hmax⟩ := ih hpi v hv
      refine ⟨List.mem_append_left _ hm, hpv, ?_⟩
      intro w hw hpw
      rcases List.mem_append.mp hw with hwi | hwa
      · exact hmax w hwi hpw
      · exact absurd (List.mem_singleton.mp hwa ▸ hpw) hpa

/-- C4: negotiation fails with `NoVersion` exactly when the client's
supported-versions list and the agent's supported set are disjoint; on
success the negotiated version belongs to both lists and is an upper bound
(in the derived `Version` order) of every version occurring in both, the
negotiated max frame size is the pairwise minimum, and the negotiated
capabilities are duplicate-free and contain a capability iff both the
client and the agent offer it. -/
theorem handshake_negotiate (sv : List Version) (mfs : Nat)
    (caps : List Capability) (hello : HaproxyHello) :
    (negotiate sv mfs caps hello = .error .NoVersion ↔
      ∀ v ∈ hello.supported_versions, v ∉ sv) ∧
    ∀ n, negotiate sv mfs caps hello = .ok n →
      n.version ∈ hello.supported_versions ∧ n.version ∈ sv ∧
      (∀ v ∈ hello.supported_versions, v ∈ sv → vleb v n.version = true) ∧
      n.max_frame_size = min hello.max_frame_size mfs ∧
      n.capabilities.Nodup ∧
      (∀ c, c ∈ n.capabilities ↔ c ∈ hello.capabilities ∧ c ∈ caps) := by
  have hperm := List.mergeSort_perm hello.supported_versions vleb
  have hpermsv := List.mergeSort_perm sv vleb
  have hsorted :=
    List.sorted_mergeSort vleb_trans vleb_total hello.supported_versions
  have hp : ∀ x : Version,
      ((sv.mergeSort vleb).reverse.any (fun v => v == x)) = true ↔ x ∈ sv := by
    intro x
    rw [any_beq_iff]
    exact hpermsv.mem_iff
  unfold negotiate
  rcases hfind : (hello.supported_versions.mergeSort vleb).reverse.find?
      (fun version =>
        (sv.mergeSort vleb).reverse.any (fun v => v == version))
    with _ | v
  · simp only []
    refine ⟨⟨fun _ => ?_, fun _ => trivial⟩, fun n h => absurd h (by simp)⟩
    intro v hv hvs
    have h1 := (find?_reverse_eq_none _).mp hfind v (hperm.mem_iff.mpr hv)
    exact h1 ((hp v).mpr hvs)
  · simp only []
    obtain ⟨hmem, hpv, hmax⟩ :=
      find?_reverse_sorted_max (hello.supported_versions.mergeSort vleb)
        hsorted v hfind
    have hv1 : v ∈ hello.supported_versions := hperm.mem_iff.mp hmem
    have hv2 : v ∈ sv := (hp v).mp hpv
    refine ⟨⟨fun h => absurd h (by simp), fun h => absurd hv2 (h v hv1)⟩, ?_⟩
    intro n hn
    injection hn with hn
    subst hn
    refine ⟨hv1, hv2, ?_, rfl, ?_, ?_⟩
    · intro w hw hws
      exact hmax w (hperm.mem_iff.mpr hw) ((hp w).mpr hws)
    · exact List.Nodup.filter _ (List.nodup_dedup _)
    · intro c
      simp [List.mem_filter, List.mem_dedup]

/-- Witness for C4: an agent supporting only version 2.0 and a client
offering only version 1.0 fail with `NoVersion`. -/
theorem handshake_negotiate_witness :
    negotiate [⟨2, 0⟩] 16384 []
        { supported_versions := [⟨1, 0⟩], max_frame_size := 256,
          capabilities := [], healthcheck := none, engine_id := none }
      = .error .NoVersion :=
  (handshake_negotiate [⟨2, 0⟩] 16384 []
      { supported_versions := [⟨1, 0⟩], max_frame_size := 256,
        capabilities := [], healthcheck := none, engine_id := none }).1.mpr
    (by decide)

/-- The message-gathering step of `Processing::handle_frame` for a
`HaproxyNotify` (src/spoa/src/state/process.rs): when the handshake
negotiated fragmentation support the frame goes through
`Reassembly::reassemble` (src/spop/src/frame/fragment.rs, a thin wrapper
around `Table::reassemble`); otherwise the messages are forwarded directly,
unconditionally.  Returns the updated table and the messages to hand to the
service, if any. -/
def processNotify (supportsFrag : Bool) (tbl : ReasmTable Message)
    (fragmented : Bool) (stream_id frame_id : Nat)
    (messages : List Message) :
    Except Error (ReasmTable Message × Option (List Message)) :=
  if supportsFrag then
    .ok (reassemble tbl fragmented (stream_id, frame_id) messages)
  else
    .ok (tbl, some messages)

/-- Counterexample to C5: with fragmentation not negotiated, a fragmented
notify is not rejected with `FragmentNotSupported`; its messages are
forwarded directly to the service. -/
theorem process_notify_fragment_counterexample :
    processNotify false emptyTable true 1 1 [] ≠
      .error .FragmentNotSupported ∧
    processNotify false emptyTable true 1 1 [] =
      .ok (emptyTable, some []) :=
  ⟨fun h => Except.noConfusion h, rfl⟩

/-- C5 (amended): when fragmentation was not negotiated, handling any
`HaproxyNotify` — fragmented or not — succeeds and forwards its messages
directly to the service, leaving the reassembly table untouched; no
`FragmentNotSupported` error is raised. -/
theorem process_notify_no_fragmentation (tbl : ReasmTable Message)
    (fragmented : Bool) (sid fid : Nat) (msgs : List Message) :
    processNotify false tbl fragmented sid fid msgs = .ok (tbl, some msgs) :=
  rfl

end Spop
